import Mathlib

/-!
Verification of the rolling control-plane upgrade orchestrator
(`pkg/upgrade/control_plane.go`).

Strings from the Go code are modelled as `List Char` where character-level
reasoning is needed (machine names, version strings) and as `String` where
they are only carried around.  Go slice expressions `s[0:i]` are modelled by
`goSliceTo`, which returns `none` when the Go program would panic (negative
or out-of-range index).  Go `map[string]string` values are modelled as
association lists with first-match lookup.
-/

namespace CPUpgrade

/-- Go `map[string]string` read, returning the zero value `d` when the key is
absent (`m[k]` on a missing key yields `""` in Go). -/
def goMapGetD (m : List (String × String)) (k d : String) : String :=
  match m with
  | [] => d
  | (k2, v) :: rest => if k2 = k then v else goMapGetD rest k d

/-- Go string slice `s[0:hi]`.  `none` models the runtime panic raised when
`hi` is negative or greater than `len(s)`. -/
def goSliceTo (s : List Char) (hi : Int) : Option (List Char) :=
  if 0 ≤ hi ∧ hi ≤ (s.length : Int) then some (s.take hi.toNat) else none

/-! ### Name generator (`upgradeSuffix`, `generateReplacementMachineName`) -/

/-- The eight characters `upgrade.` shared by `upgradeSuffix` and the
suffix-stripping regular expression. -/
def upgradeWord : List Char := ['u', 'p', 'g', 'r', 'a', 'd', 'e', '.']

/-- `upgradeSuffix(upgradeID) = ".upgrade." + upgradeID` from the source. -/
def upgradeSuffix (upgradeID : List Char) : List Char :=
  '.' :: (upgradeWord ++ upgradeID)

/-- Nonempty all-digit tail, the `[0-9]+$` part of the suffix regex. -/
def digitsTail (t : List Char) : Bool :=
  !t.isEmpty && t.all Char.isDigit

/-- Whether the regular expression `upgrade\.[0-9]+$` matches the string
exactly at its start, i.e. `t` is `upgrade.` followed by a nonempty run of
digits reaching the end of the string. -/
def matchAt (t : List Char) : Bool :=
  upgradeWord.isPrefixOf t && digitsTail (t.drop 8)

/-- Modelled from the spec: the variable `upgradeIDNameSuffixRegex` is
declared outside the provided source file.  Per the spec, replacement names
carry the tail `.upgrade.<UID>` where the upgrade id consists only of digits,
and step 1 of `replacementName` strips "a substring matching the regex
(upgrade-id-suffix tail) from the position one character before the match";
the regex is therefore modelled as `upgrade\.[0-9]+$`.  This function is
Go's `regexp.FindStringIndex` restricted to that pattern: the start position
of the leftmost match, or `none`. -/
def findMatchStart : List Char → Option Nat
  | [] => none
  | c :: rest =>
    if matchAt (c :: rest) then some 0
    else (findMatchStart rest).map (· + 1)

/-- `validation.DNS1123SubdomainMaxLength` from k8s.io/apimachinery. -/
def DNS1123SubdomainMaxLength : Int := 253

/-- Step 1 of `generateReplacementMachineName`: if the suffix regex matches,
slice the name up to one character before the match. -/
def stripUpgradeSuffix (machineName : List Char) : Option (List Char) :=
  match findMatchStart machineName with
  | some m => goSliceTo machineName ((m : Int) - 1)
  | none => some machineName

/-- Step 2 of `generateReplacementMachineName`: if the name plus the suffix
would exceed the maximum length, slice off the excess from the right. -/
def truncateForSuffix (machineName : List Char) (suffixLen : Nat) : Option (List Char) :=
  let excess : Int :=
    (machineName.length : Int) + (suffixLen : Int) - DNS1123SubdomainMaxLength
  if 0 < excess then goSliceTo machineName ((machineName.length : Int) - excess)
  else some machineName

/-- `generateReplacementMachineName` from the source: strip a previous
upgrade suffix, truncate so the new suffix fits in 253 characters, append the
new suffix.  `none` models a Go slice-bounds panic. -/
def generateReplacementMachineName (original upgradeID : List Char) : Option (List Char) :=
  let machineSuffix := upgradeSuffix upgradeID
  match stripUpgradeSuffix original with
  | none => none
  | some machineName =>
    match truncateForSuffix machineName machineSuffix.length with
    | none => none
    | some mn => some (mn ++ machineSuffix)

/-! ### Kubernetes API errors and object references -/

/-- Kubernetes API errors, as far as the upgrader inspects them
(`apierrors.IsNotFound`, `apierrors.IsAlreadyExists`). -/
inductive ApiError
  | notFound
  | alreadyExists
  | other (msg : String)
deriving DecidableEq

def ApiError.isNotFound : ApiError → Bool
  | .notFound => true
  | _ => false

def ApiError.isAlreadyExists : ApiError → Bool
  | .alreadyExists => true
  | _ => false

/-- `corev1.ObjectReference`, the fields `resourceExists` copies. -/
structure ObjectReference where
  apiVersion : String
  kind : String
  ns : String
  name : String
deriving DecidableEq

/-- `resourceExists` from the source, with the client `Get` call abstracted
as an oracle.  Mirrors the Go pair return `(bool, error)`: a not-found error
becomes `(false, nil)`, any other error is returned alongside `false`. -/
def resourceExists (get : ObjectReference → Except ApiError Unit)
    (ref : ObjectReference) : Bool × Option ApiError :=
  match get ref with
  | .ok _ => (true, none)
  | .error e => if e.isNotFound then (false, none) else (false, some e)

/-! ### The etcdctl exec command (`etcdctlForPod`) -/

def etcdCACertFile : String := "/etc/kubernetes/pki/etcd/ca.crt"
def etcdCertFile : String := "/etc/kubernetes/pki/etcd/peer.crt"
def etcdKeyFile : String := "/etc/kubernetes/pki/etcd/peer.key"

/-- The `Command` slice that `etcdctlForPod` places into `PodExecInput`:
the fixed etcdctl invocation plus the caller's args are joined into a single
`sh -c` string, and then the caller's args are appended once more as extra
argv entries (`opts.Command = append(opts.Command, args...)`). -/
def etcdctlForPodCommand (podIP : String) (args : List String) : List String :=
  let endpoint := "https://" ++ podIP ++ ":2379"
  let fullArgs := ["ETCDCTL_API=3", "etcdctl",
    "--cacert", etcdCACertFile, "--cert", etcdCertFile, "--key", etcdKeyFile,
    "--endpoints", endpoint] ++ args
  ["sh", "-c", String.intercalate " " fullArgs] ++ args

/-! ### The kubeadm configmap update (`updateKubeadmKubernetesVersion`) -/

/-- Schema-free YAML values: the model of the `map[string]interface{}`
entries of a deserialized `ClusterConfiguration`. -/
inductive YamlValue
  | str (s : String)
  | num (n : Int)
  | boolean (b : Bool)
  | arr (xs : List YamlValue)
  | map (m : List (String × YamlValue))

/-- A serialized document stored in a configmap `data` entry, modelled by its
parse: either it deserializes to a mapping or `yaml.Unmarshal` fails. -/
inductive YamlDoc
  | mapping (m : List (String × YamlValue))
  | invalid (msg : String)

/-- Go map lookup, `none` for an absent key. -/
def goAListGet {α : Type} (m : List (String × α)) (k : String) : Option α :=
  match m with
  | [] => none
  | (k2, v) :: rest => if k2 = k then some v else goAListGet rest k

/-- Go map assignment `m[k] = v`: overwrite the existing entry or add one. -/
def goAListInsert {α : Type} (m : List (String × α)) (k : String) (v : α) :
    List (String × α) :=
  match m with
  | [] => [(k, v)]
  | (k2, v2) :: rest =>
    if k2 = k then (k2, v) :: rest else (k2, v2) :: goAListInsert rest k v

/-- `corev1.ConfigMap`, restricted to the fields the upgrader touches. -/
structure V1ConfigMap where
  name : String
  resourceVersion : String
  data : List (String × YamlDoc)

/-- Modelled from spec §4.6 for the external `sigs.k8s.io/yaml` library:
unmarshalling a mapping document yields its mapping ("deserialize
`data.ClusterConfiguration` as a schema-free mapping"), any other document is
an error. -/
def yamlUnmarshalMap : YamlDoc → Except String (List (String × YamlValue))
  | .mapping m => .ok m
  | .invalid msg => .error msg

/-- Modelled from spec §4.6: marshalling is the inverse of unmarshalling
("The mapping must round-trip unknown fields unchanged"). -/
def yamlMarshalMap (m : List (String × YamlValue)) : YamlDoc := .mapping m

/-- `DeepCopy` produces an independent value; in this pure model a value copy. -/
def deepCopyConfigMap (cm : V1ConfigMap) : V1ConfigMap := cm

/-- `updateKubeadmKubernetesVersion` from the source.  The result pair is
(final state of the `original` argument, returned configmap): the code
mutates only the deep copy, so the first component is `original` itself.
A missing `ClusterConfiguration` key reads as `""` in Go, which
yaml-decodes to an empty mapping. -/
def updateKubeadmKubernetesVersion (original : V1ConfigMap) (version : String) :
    Except String (V1ConfigMap × V1ConfigMap) :=
  let cm := deepCopyConfigMap original
  let doc :=
    match goAListGet cm.data "ClusterConfiguration" with
    | some d => d
    | none => .mapping []
  match yamlUnmarshalMap doc with
  | .error e => .error e
  | .ok clusterConfig =>
    let clusterConfig2 := goAListInsert clusterConfig "kubernetesVersion" (.str version)
    let updated := yamlMarshalMap clusterConfig2
    .ok (original, { cm with data := goAListInsert cm.data "ClusterConfiguration" updated })

/-! ### Semantic versions (external library `github.com/blang/semver`) -/

/-- `semver.PRVersion`: one dot-separated prerelease identifier.  The
`versionStr` of a numeric identifier and the `versionNum` of an alphanumeric
one stay at their zero values, as in Go. -/
structure PRVersion where
  versionStr : List Char
  versionNum : Nat
  isNum : Bool
deriving DecidableEq

/-- `semver.Version`.  The numeric fields are Go `uint64` values, kept as
`Nat` (parsing rejects values at or above `2^64`). -/
structure SemVersion where
  major : Nat
  minor : Nat
  patch : Nat
  pre : List PRVersion
  build : List (List Char)
deriving DecidableEq

/-- The zero `semver.Version{}` (`unsetVersion` in the source). -/
def unsetVersion : SemVersion := ⟨0, 0, 0, [], []⟩

/-- The `numbers` character set of the library. -/
def semverNumbers : List Char := ['0', '1', '2', '3', '4', '5', '6', '7', '8', '9']

/-- The `alphas` character set of the library (letters and `-`). -/
def semverAlphas : List Char :=
  ['a', 'b', 'c', 'd', 'e', 'f', 'g', 'h', 'i', 'j', 'k', 'l', 'm',
   'n', 'o', 'p', 'q', 'r', 's', 't', 'u', 'v', 'w', 'x', 'y', 'z',
   'A', 'B', 'C', 'D', 'E', 'F', 'G', 'H', 'I', 'J', 'K', 'L', 'M',
   'N', 'O', 'P', 'Q', 'R', 'S', 'T', 'U', 'V', 'W', 'X', 'Y', 'Z', '-']

def semverAlphanum : List Char := semverAlphas ++ semverNumbers

/-- `containsOnly(s, set)` from the library. -/
def containsOnly (s set : List Char) : Bool := s.all (fun c => set.contains c)

/-- `hasLeadingZeroes(s) = len(s) > 1 && strings.HasPrefix(s, "0")`. -/
def hasLeadingZeroes : List Char → Bool
  | '0' :: _ :: _ => true
  | _ => false

def digitVal (c : Char) : Nat := c.toNat - 48

/-- `strconv.ParseUint(s, 10, 64)`: base-10 digits only, value below `2^64`. -/
def parseUint64 (s : List Char) : Option Nat :=
  if s.isEmpty then none
  else if s.all (fun c => semverNumbers.contains c) then
    let n := s.foldl (fun acc c => acc * 10 + digitVal c) 0
    if n < 2 ^ 64 then some n else none
  else none

/-- `semver.NewPRVersion`: numeric identifiers must have no leading zeroes;
otherwise the identifier must be alphanumeric. -/
def newPRVersion (s : List Char) : Option PRVersion :=
  if s.isEmpty then none
  else if containsOnly s semverNumbers then
    if hasLeadingZeroes s then none
    else
      match parseUint64 s with
      | none => none
      | some n => some ⟨[], n, true⟩
  else if containsOnly s semverAlphanum then some ⟨s, 0, false⟩
  else none

/-- Split a string at the first occurrence of `c`: `strings.IndexRune` plus
the two slices around the hit (`none` when `c` does not occur). -/
def breakOn (c : Char) : List Char → List Char × Option (List Char)
  | [] => ([], none)
  | x :: rest =>
    if x = c then ([], some rest)
    else
      match breakOn c rest with
      | (a, r) => (x :: a, r)

/-- `strings.Split(s, ".")`. -/
def splitOnDot : List Char → List (List Char)
  | [] => [[]]
  | c :: rest =>
    if c = '.' then [] :: splitOnDot rest
    else
      match splitOnDot rest with
      | [] => [[c]]
      | p :: ps => (c :: p) :: ps

/-- `strings.SplitN(s, ".", 3)`. -/
def splitN3Dot (s : List Char) : List (List Char) :=
  match breakOn '.' s with
  | (a, none) => [a]
  | (a, some r1) =>
    match breakOn '.' r1 with
    | (b, none) => [a, b]
    | (b, some r2) => [a, b, r2]

/-- `semver.Parse`.  Errors collapse to `none`. -/
def semverParse (s : List Char) : Option SemVersion :=
  if s.isEmpty then none
  else
    match splitN3Dot s with
    | [p0, p1, p2] =>
      if !containsOnly p0 semverNumbers then none
      else if hasLeadingZeroes p0 then none
      else
        match parseUint64 p0 with
        | none => none
        | some major =>
          if !containsOnly p1 semverNumbers then none
          else if hasLeadingZeroes p1 then none
          else
            match parseUint64 p1 with
            | none => none
            | some minor =>
              let buildSplit := breakOn '+' p2
              let buildParts : List (List Char) :=
                match buildSplit.2 with
                | none => []
                | some rest => splitOnDot rest
              let preSplit := breakOn '-' buildSplit.1
              let preParts : List (List Char) :=
                match preSplit.2 with
                | none => []
                | some rest => splitOnDot rest
              let patchStr := preSplit.1
              if !containsOnly patchStr semverNumbers then none
              else if hasLeadingZeroes patchStr then none
              else
                match parseUint64 patchStr with
                | none => none
                | some patch =>
                  match preParts.mapM newPRVersion with
                  | none => none
                  | some pre =>
                    if buildParts.all
                        (fun b => !b.isEmpty && containsOnly b semverAlphanum) then
                      some ⟨major, minor, patch, pre, buildParts⟩
                    else none
    | _ => none

/-- The character set Go's `strings.TrimSpace` trims (the Latin-1 range of
`unicode.IsSpace`; wider Unicode space classes do not occur in version
strings). -/
def goIsSpace (c : Char) : Bool :=
  c == ' ' || c == '\t' || c == '\n' || c == Char.ofNat 11 || c == Char.ofNat 12 ||
    c == '\r' || c == Char.ofNat 0x85 || c == Char.ofNat 0xA0

def trimSpaceGo (s : List Char) : List Char :=
  ((s.dropWhile goIsSpace).reverse.dropWhile goIsSpace).reverse

/-- `strings.TrimPrefix(s, "v")`. -/
def trimPrefixV : List Char → List Char
  | 'v' :: rest => rest
  | s => s

/-- `strings.ContainsAny(s, "+-")`. -/
def containsAnyPlusMinus (s : List Char) : Bool :=
  s.any (fun c => c == '+' || c == '-')

/-- `semver.ParseTolerant`: trim space, drop a leading `v`, pad a short
`X` or `X.Y` version with zeroes (rejecting short versions carrying
prerelease or build metadata), then `Parse`. -/
def parseTolerant (s : List Char) : Option SemVersion :=
  let s1 := trimPrefixV (trimSpaceGo s)
  let parts := splitN3Dot s1
  if parts.length < 3 then
    match parts.getLast? with
    | none => none
    | some last =>
      if containsAnyPlusMinus last then none
      else
        semverParse
          (List.intercalate ['.'] (parts ++ List.replicate (3 - parts.length) ['0']))
  else semverParse s1

/-! ### Semantic version comparison (`semver.Version.Compare`) -/

/-- Chain two comparison outcomes: the second decides only on a tie. -/
def ordThen (a b : Ordering) : Ordering :=
  match a with
  | .eq => b
  | o => o

/-- Go's integer three-way comparison
`if a != b { if a > b { return 1 }; return -1 }; return 0`. -/
def natCompareGo (a b : Nat) : Ordering :=
  if a = b then .eq else if b < a then .gt else .lt

/-- `strings.Compare` on identifiers: byte order, which for UTF-8 equals
code-point order. -/
def charCompareGo (a b : Char) : Ordering :=
  natCompareGo a.toNat b.toNat

/-- Lexicographic list comparison, shorter lists first:  the element loop of
`Version.Compare` over prerelease identifiers together with its final length
comparison. -/
def listCompareWith {α : Type} (cmp : α → α → Ordering) : List α → List α → Ordering
  | [], [] => .eq
  | [], _ :: _ => .lt
  | _ :: _, [] => .gt
  | a :: as, b :: bs => ordThen (cmp a b) (listCompareWith cmp as bs)

/-- `semver.PRVersion.Compare`: numeric identifiers sort before alphanumeric
ones, numerics compare by value, alphanumerics by `strings.Compare`. -/
def prCompare (v o : PRVersion) : Ordering :=
  if v.isNum && !o.isNum then .lt
  else if !v.isNum && o.isNum then .gt
  else if v.isNum && o.isNum then natCompareGo v.versionNum o.versionNum
  else listCompareWith charCompareGo v.versionStr o.versionStr

/-- The prerelease part of `Version.Compare`: a release (no prerelease)
sorts after any prerelease; otherwise identifiers compare elementwise with
shorter lists first. -/
def preCompareGo (v o : List PRVersion) : Ordering :=
  match v, o with
  | [], [] => .eq
  | [], _ :: _ => .gt
  | _ :: _, [] => .lt
  | a :: as, b :: bs => listCompareWith prCompare (a :: as) (b :: bs)

/-- `semver.Version.Compare`: major, minor, patch, then prerelease; build
metadata is ignored. -/
def semverCompare (v o : SemVersion) : Ordering :=
  ordThen (natCompareGo v.major o.major)
    (ordThen (natCompareGo v.minor o.minor)
      (ordThen (natCompareGo v.patch o.patch) (preCompareGo v.pre o.pre)))

/-- `Version.EQ`: `Compare == 0`. -/
def semverEQ (v o : SemVersion) : Bool :=
  match semverCompare v o with
  | .eq => true
  | _ => false

/-- `Version.LT`: `Compare < 0`. -/
def semverLT (v o : SemVersion) : Bool :=
  match semverCompare v o with
  | .lt => true
  | _ => false

/-- `Version.GT`: `Compare > 0`. -/
def semverGT (v o : SemVersion) : Bool :=
  match semverCompare v o with
  | .gt => true
  | _ => false

/-- A lawful three-way comparison: antisymmetric under argument swap,
transitive on strict outcomes, and with ties substitutive on the left.
These laws make `leTrans`/`geTrans` available for min/max reasoning. -/
structure IsCmp {α : Type} (cmp : α → α → Ordering) : Prop where
  swap : ∀ a b, cmp a b = (cmp b a).swap
  transLt : ∀ a b c, cmp a b = .lt → cmp b c = .lt → cmp a c = .lt
  eqL : ∀ a b c, cmp a b = .eq → cmp a c = cmp b c

/-! ### minMaxControlPlaneVersions -/

/-- A control-plane Machine as far as version resolution reads it:
namespace, name, and the optional `spec.version` pointer (`none` models a
nil pointer, `some []` an empty string). -/
structure MachineV where
  ns : String
  name : String
  version : Option (List Char)

/-- Errors of `minMaxControlPlaneVersions`, keyed by the offending machine. -/
inductive MinMaxErr
  | nilVersion (ns name : String)
  | invalidVersion (v : List Char) (ns name : String)

/-- The loop of `minMaxControlPlaneVersions` with the `min`/`max`
accumulators made explicit. -/
def minMaxLoop : List MachineV → SemVersion → SemVersion →
    Except MinMaxErr (SemVersion × SemVersion)
  | [], mn, mx => .ok (mn, mx)
  | machine :: rest, mn, mx =>
    match machine.version with
    | none => .error (.nilVersion machine.ns machine.name)
    | some vs =>
      if vs ≠ [] then
        match parseTolerant vs with
        | none => .error (.invalidVersion vs machine.ns machine.name)
        | some machineVersion =>
          let mn2 := if semverEQ mn unsetVersion || semverLT machineVersion mn then
            machineVersion else mn
          let mx2 := if semverEQ mx unsetVersion || semverGT machineVersion mx then
            machineVersion else mx
          minMaxLoop rest mn2 mx2
      else minMaxLoop rest mn mx

/-- `minMaxControlPlaneVersions` from the source. -/
def minMaxControlPlaneVersions (machines : List MachineV) :
    Except MinMaxErr (SemVersion × SemVersion) :=
  minMaxLoop machines unsetVersion unsetVersion

/-- The versions the loop actually parses: nonempty `spec.version` strings
that `ParseTolerant` accepts, in machine order. -/
def parsedVersions : List MachineV → List SemVersion
  | [] => []
  | machine :: rest =>
    match machine.version with
    | none => parsedVersions rest
    | some vs =>
      if vs ≠ [] then
        match parseTolerant vs with
        | none => parsedVersions rest
        | some v => v :: parsedVersions rest
      else parsedVersions rest

/-! ### Kubelet configmap synthesis (`updateKubeletConfigMapIfNeeded`) -/

/-- A typed configmap as far as this function touches it; `dataTag` stands
for the payload that is copied verbatim. -/
structure KubeletConfigMap where
  name : String
  resourceVersion : String
  dataTag : String
deriving DecidableEq

/-- The zero-valued `&corev1.ConfigMap{}` that the typed client returns
alongside an error. -/
def emptyKubeletConfigMap : KubeletConfigMap := ⟨"", "", ""⟩

/-- Oracles for the target-cluster configmap API used by
`updateKubeletConfigMapIfNeeded`. -/
structure KubeletEnv where
  getConfigMap : String → Except ApiError KubeletConfigMap
  createConfigMap : KubeletConfigMap → Except ApiError Unit

/-- Remote calls made by `updateKubeletConfigMapIfNeeded`, in order. -/
inductive KubeletAction
  | getCM (name : String)
  | createCM (cm : KubeletConfigMap)
deriving DecidableEq

inductive KubeletErr
  | desiredCheckFailed (name : String) (cause : ApiError)
  | previousNotFound (name : String)
  | createFailed (name : String) (cause : ApiError)
deriving DecidableEq

/-- Go `uint64` decrement: `n - 1` wraps to `2^64 - 1` at zero.  The `Minor`
field of `semver.Version` is a `uint64`, so `version.Minor-1` is computed
with this arithmetic. -/
def uint64SubOne (n : Nat) : Nat := (n + (2 ^ 64 - 1)) % 2 ^ 64

/-- The trailing create of `updateKubeletConfigMapIfNeeded`: rename the
fetched configmap, clear its resource version, create it; `AlreadyExists`
is ignored. -/
def kubeletCreatePhase (env : KubeletEnv) (cm : KubeletConfigMap)
    (desiredName : String) (trace : List KubeletAction) :
    Except KubeletErr Unit × List KubeletAction :=
  let cm2 : KubeletConfigMap := { cm with name := desiredName, resourceVersion := "" }
  match env.createConfigMap cm2 with
  | .ok _ => (.ok (), trace ++ [.createCM cm2])
  | .error e =>
    if e.isAlreadyExists then (.ok (), trace ++ [.createCM cm2])
    else (.error (.createFailed desiredName e), trace ++ [.createCM cm2])

/-- `updateKubeletConfigMapIfNeeded` from the source, with the configmap API
abstracted as oracles and the remote calls recorded in order.  Note the two
quirks mirrored from the code: the previous-minor name renders `Minor-1`
with `uint64` arithmetic, and a non-NotFound error from the second `Get` is
dropped (the zero-valued configmap returned by the typed client is used). -/
def updateKubeletConfigMapIfNeeded (env : KubeletEnv) (version : SemVersion) :
    Except KubeletErr Unit × List KubeletAction :=
  let desiredKubeletConfigMapName :=
    "kubelet-config-" ++ toString version.major ++ "." ++ toString version.minor
  match env.getConfigMap desiredKubeletConfigMapName with
  | .ok _ => (.ok (), [.getCM desiredKubeletConfigMapName])
  | .error e =>
    if e.isNotFound = false then
      (.error (.desiredCheckFailed desiredKubeletConfigMapName e),
        [.getCM desiredKubeletConfigMapName])
    else
      let previousMinorVersionKubeletConfigMapName :=
        "kubelet-config-" ++ toString version.major ++ "." ++
          toString (uint64SubOne version.minor)
      let trace2 := [KubeletAction.getCM desiredKubeletConfigMapName,
        KubeletAction.getCM previousMinorVersionKubeletConfigMapName]
      match env.getConfigMap previousMinorVersionKubeletConfigMapName with
      | .error e2 =>
        if e2.isNotFound then
          (.error (.previousNotFound previousMinorVersionKubeletConfigMapName), trace2)
        else
          kubeletCreatePhase env emptyKubeletConfigMap desiredKubeletConfigMapName trace2
      | .ok cm => kubeletCreatePhase env cm desiredKubeletConfigMapName trace2

/-- A configmap-get oracle that finds nothing. -/
def kubeletEnvAllNotFound : KubeletEnv :=
  ⟨fun _ => .error .notFound, fun _ => .ok ()⟩

/-! ### updateMachine (the per-machine replacement sequence) -/

/-- Node address types, as far as `hostnameForNode` inspects them. -/
inductive NodeAddressType
  | hostName
  | internalIP
  | externalIP
  | internalDNS
  | externalDNS
deriving DecidableEq

structure NodeObj where
  name : String
  addresses : List (NodeAddressType × String)
deriving DecidableEq

def hostnameLoop : List (NodeAddressType × String) → String
  | [] => ""
  | (t, a) :: rest => if t = .hostName then a else hostnameLoop rest

/-- `hostnameForNode`: the first status address of type `HostName`, else the
empty string. -/
def hostnameForNode (n : NodeObj) : String := hostnameLoop n.addresses

/-- `ctrlclient.ObjectKey`. -/
structure ObjectKey where
  ns : String
  name : String
deriving DecidableEq

/-- A `clusterv1.Machine`, restricted to the fields `updateMachine` reads or
writes when building the replacement. -/
structure MachineM where
  ns : String
  name : String
  resourceVersion : String
  providerID : Option String
  infrastructureRefName : String
  bootstrapConfigRefName : String
  bootstrapData : Option String
  version : Option String
deriving DecidableEq

/-- Oracles for the remote operations performed by `updateMachine`, plus the
two pieces of upgrader state it reads (`providerIDsToNodes` and the
pre-upgrade `oldNodeToEtcdMember` snapshot). -/
structure UMEnv where
  newProviderID : String → Except String String
  providerIDsToNodes : List (String × NodeObj)
  resourceExistsR : Except String Bool
  createMachineR : MachineM → Except String Unit
  getReplacementR : Except String MachineM
  waitForProviderIDR : Except String String
  waitForMatchingNodeR : Except String NodeObj
  waitForNodeReadyR : Except String Unit
  updateProviderIDsR : Except String Unit
  oldNodeToEtcdMember : List (String × String)
  deleteEtcdMemberR : String → Except String Unit
  deleteMachineR : Except String Unit
  desiredVersion : String

/-- The remote operations `updateMachine` performs, in program order.  Waits
carry whether they succeeded; `removedEtcdMember`/`deletedMachine` record the
invocation of the corresponding call. -/
inductive UEvent
  | checkedReplacementExists (found : Bool)
  | createdReplacement (name : String)
  | fetchedReplacement (name : String)
  | waitedForProviderID (ok : Bool)
  | waitedForMatchingNode (ok : Bool)
  | waitedForNodeReady (ok : Bool)
  | refreshedNodeMap
  | removedEtcdMember (memberID : String)
  | deletedMachine (ns name : String)
deriving DecidableEq

/-- The delete of the outgoing Machine at the end of `updateMachine`. -/
def deleteOldMachine (env : UMEnv) (machine : MachineM) (trace : List UEvent) :
    Except String Unit × List UEvent :=
  match env.deleteMachineR with
  | .error e => (.error e, trace ++ [.deletedMachine machine.ns machine.name])
  | .ok _ => (.ok (), trace ++ [.deletedMachine machine.ns machine.name])

/-- The conditional etcd member removal at the end of `updateMachine`:
`oldEtcdMemberID := u.oldNodeToEtcdMember[oldHostName]`; when nonempty the
member is removed (an error aborts before the Machine delete), then the old
Machine is deleted. -/
def memberRemovePhase (env : UMEnv) (oldEtcdMemberID : String) (machine : MachineM)
    (trace : List UEvent) : Except String Unit × List UEvent :=
  if oldEtcdMemberID ≠ "" then
    match env.deleteEtcdMemberR oldEtcdMemberID with
    | .error e => (.error e, trace ++ [.removedEtcdMember oldEtcdMemberID])
    | .ok _ => deleteOldMachine env machine (trace ++ [.removedEtcdMember oldEtcdMemberID])
  else deleteOldMachine env machine trace

/-- The tail of `updateMachine` after the replacement Machine exists: the
three bounded waits, the node-map refresh, the conditional etcd member
removal keyed by the pre-upgrade snapshot, and the delete of the old
Machine. -/
def updateMachineTail (env : UMEnv) (oldHostName : String) (machine : MachineM)
    (trace : List UEvent) : Except String Unit × List UEvent :=
  match env.waitForProviderIDR with
  | .error e => (.error e, trace ++ [.waitedForProviderID false])
  | .ok _ =>
    match env.waitForMatchingNodeR with
    | .error e => (.error e, trace ++ [.waitedForProviderID true, .waitedForMatchingNode false])
    | .ok _ =>
      match env.waitForNodeReadyR with
      | .error e => (.error e, trace ++ [.waitedForProviderID true,
          .waitedForMatchingNode true, .waitedForNodeReady false])
      | .ok _ =>
        match env.updateProviderIDsR with
        | .error e => (.error e, trace ++ [.waitedForProviderID true,
            .waitedForMatchingNode true, .waitedForNodeReady true])
        | .ok _ =>
          memberRemovePhase env (goMapGetD env.oldNodeToEtcdMember oldHostName "") machine
            (trace ++ [.waitedForProviderID true, .waitedForMatchingNode true,
              .waitedForNodeReady true, .refreshedNodeMap])

/-- `updateMachine` from the source, with remote calls abstracted as oracles
and recorded in order.  The old node and its hostname are resolved first;
then the replacement Machine is created (or fetched when it already exists);
then the tail runs.  The nil-pointer dereference of `*machine.Spec.ProviderID`
cannot be reached from `updateMachines` (which skips such machines); it is
modelled as an early abort with an empty trace. -/
def updateMachine (env : UMEnv) (replacementKey : ObjectKey) (machine : MachineM) :
    Except String Unit × List UEvent :=
  match machine.providerID with
  | none => (.error "nil provider id dereference", [])
  | some rawPID =>
    match env.newProviderID rawPID with
    | .error e => (.error e, [])
    | .ok originalProviderID =>
      match goAListGet env.providerIDsToNodes originalProviderID with
      | none => (.error "unknown previous node", [])
      | some oldNode =>
        match env.resourceExistsR with
        | .error e => (.error e, [])
        | .ok found =>
          -- `if !exists { create a fresh replacement } else { fetch it }`
          match found with
          | false =>
            match env.createMachineR
                { machine with
                  resourceVersion := ""
                  providerID := none
                  name := replacementKey.name
                  infrastructureRefName := replacementKey.name
                  bootstrapData := none
                  bootstrapConfigRefName := replacementKey.name
                  version := some env.desiredVersion } with
            | .error e => (.error e, [.checkedReplacementExists false])
            | .ok _ =>
              updateMachineTail env (hostnameForNode oldNode) machine
                [.checkedReplacementExists false, .createdReplacement replacementKey.name]
          | true =>
            match env.getReplacementR with
            | .error e => (.error e, [.checkedReplacementExists true])
            | .ok _ =>
              updateMachineTail env (hostnameForNode oldNode) machine
                [.checkedReplacementExists true, .fetchedReplacement replacementKey.name]

/-- The hostname of the Machine's current node, as `updateMachine` resolves
it (provider-id parse, node-map lookup, `hostnameForNode`); `none` when the
resolution aborts. -/
def oldNodeHostname (env : UMEnv) (machine : MachineM) : Option String :=
  match machine.providerID with
  | none => none
  | some rawPID =>
    match env.newProviderID rawPID with
    | .error _ => none
    | .ok pid =>
      match goAListGet env.providerIDsToNodes pid with
      | none => none
      | some oldNode => some (hostnameForNode oldNode)

/-- Trace checker: every `removedEtcdMember` is preceded by a successful
`waitedForNodeReady`. -/
def readyBeforeRemove : List UEvent → Bool → Bool
  | [], _ => true
  | .waitedForNodeReady true :: rest, _ => readyBeforeRemove rest true
  | .removedEtcdMember _ :: rest, seen => seen && readyBeforeRemove rest seen
  | _ :: rest, seen => readyBeforeRemove rest seen

/-- Trace checker: every `removedEtcdMember` carries exactly the (nonempty)
snapshot entry for the old node's hostname. -/
def removalsMatchSnapshot (snapshot : List (String × String)) (hostname : String) :
    List UEvent → Bool
  | [] => true
  | .removedEtcdMember memberID :: rest =>
    (goMapGetD snapshot hostname "" == memberID) && !(memberID == "") &&
      removalsMatchSnapshot snapshot hostname rest
  | _ :: rest => removalsMatchSnapshot snapshot hostname rest

/-- Trace checker: every `deletedMachine` is preceded by a
`removedEtcdMember`, unless the snapshot has no entry for the old node's
hostname (`noMember`). -/
def deleteAfterRemoval (noMember : Bool) : List UEvent → Bool → Bool
  | [], _ => true
  | .removedEtcdMember _ :: rest, _ => deleteAfterRemoval noMember rest true
  | .deletedMachine _ _ :: rest, removed =>
    (removed || noMember) && deleteAfterRemoval noMember rest removed
  | _ :: rest, removed => deleteAfterRemoval noMember rest removed

/-! ### updateMachines (the per-machine loop body) -/

/-- The annotation key `upgrade.cluster-api.vmware.com/id`. -/
def AnnotationUpgradeID : String := "upgrade.cluster-api.vmware.com/id"

/-- A `clusterv1.Machine` as the `updateMachines` loop reads it.  `none`
annotations model a nil map. -/
structure MachineA where
  ns : String
  name : String
  providerID : Option String
  annotations : Option (List (String × String))
  infrastructureRefName : String
  bootstrapConfigRefName : String
deriving DecidableEq

/-- Oracles for the calls the `updateMachines` loop body makes; the three
`update*` entries stand for `updateInfrastructureReference`,
`updateBootstrapConfig` and `updateMachine`, which are modelled separately. -/
structure UMSEnv where
  newPatchHelperR : Except String Unit
  patchMachineR : Except String Unit
  updateInfraR : Except String Unit
  updateBootstrapR : Except String Unit
  updateMachineR : Except String Unit

inductive MEvent
  | skippedNoProviderID
  | patchedUpgradeID (upgradeID : String)
  | patchFailed
  | skippedMismatch (machineUpgradeID : String)
  | skippedReplacement
  | calledUpdateInfra (replacementName : String)
  | calledUpdateBootstrap (replacementName : String)
  | calledUpdateMachine (replacementName : String)
deriving DecidableEq

/-- Outcome of one iteration of the loop: `continue` to the next machine,
abort the run with an error, or a Go panic (slice bounds in
`generateReplacementMachineName`). -/
inductive StepOutcome
  | next
  | failed (e : String)
  | panicked
deriving DecidableEq

def upgradeSuffixS (upgradeID : String) : String := ".upgrade." ++ upgradeID

/-- `strings.HasSuffix`. -/
def goHasSuffix (s suffix2 : String) : Bool :=
  suffix2.toList.isSuffixOf s.toList

/-- `generateReplacementMachineName` on `String` values. -/
def generateReplacementMachineNameS (original upgradeID : String) : Option String :=
  (generateReplacementMachineName original.toList upgradeID.toList).map List.asString

/-- The rest of the loop body after the annotation has been ensured:
the mismatch check (reading the possibly just-patched shared annotation
map), the replacement-name skip, and the three synthesis calls. -/
def updateMachinesStepRest (env : UMSEnv) (upgradeID clusterNamespace : String)
    (machine : MachineA) (annotations2 : List (String × String))
    (trace : List MEvent) : StepOutcome × List MEvent :=
  if goMapGetD annotations2 AnnotationUpgradeID "" ≠ upgradeID then
    (.next, trace ++ [.skippedMismatch (goMapGetD annotations2 AnnotationUpgradeID "")])
  else if goHasSuffix machine.name (upgradeSuffixS upgradeID) then
    (.next, trace ++ [.skippedReplacement])
  else
    match generateReplacementMachineNameS machine.name upgradeID with
    | none => (.panicked, trace)
    | some replacementMachineName =>
      match env.updateInfraR with
      | .error e => (.failed e, trace ++ [.calledUpdateInfra replacementMachineName])
      | .ok _ =>
        match env.updateBootstrapR with
        | .error e => (.failed e, trace ++ [.calledUpdateInfra replacementMachineName,
            .calledUpdateBootstrap replacementMachineName])
        | .ok _ =>
          match env.updateMachineR with
          | .error e => (.failed e, trace ++ [.calledUpdateInfra replacementMachineName,
              .calledUpdateBootstrap replacementMachineName,
              .calledUpdateMachine replacementMachineName])
          | .ok _ => (.next, trace ++ [.calledUpdateInfra replacementMachineName,
              .calledUpdateBootstrap replacementMachineName,
              .calledUpdateMachine replacementMachineName])

/-- One iteration of the `updateMachines` loop over a Machine: skip when
`spec.providerID` is nil; ensure the upgrade-id annotation (patching it when
absent or empty; a patch failure skips the machine); then the rest.  The
annotation map is shared with the machine object, so the mismatch check sees
the freshly patched value. -/
def updateMachinesStep (env : UMSEnv) (upgradeID clusterNamespace : String)
    (machine : MachineA) : StepOutcome × List MEvent :=
  match machine.providerID with
  | none => (.next, [.skippedNoProviderID])
  | some _ =>
    let annotations0 : List (String × String) :=
      match machine.annotations with
      | none => []
      | some a => a
    if goMapGetD annotations0 AnnotationUpgradeID "" = "" then
      match env.newPatchHelperR with
      | .error _ => (.next, [.patchFailed])
      | .ok _ =>
        let annotations1 := goAListInsert annotations0 AnnotationUpgradeID upgradeID
        match env.patchMachineR with
        | .error _ => (.next, [.patchFailed])
        | .ok _ =>
          updateMachinesStepRest env upgradeID clusterNamespace machine annotations1
            [.patchedUpgradeID upgradeID]
    else
      updateMachinesStepRest env upgradeID clusterNamespace machine annotations0 []

/-! ### Lemmas about the name generator -/

theorem upgradeWord_length : upgradeWord.length = 8 := by decide

theorem matchAt_iff (t : List Char) :
    matchAt t = true ↔ ∃ d, t = upgradeWord ++ d ∧ d ≠ [] ∧ d.all Char.isDigit = true := by
  unfold matchAt digitsTail
  rw [Bool.and_eq_true, List.isPrefixOf_iff_prefix]
  constructor
  · rintro ⟨⟨d, rfl⟩, hd⟩
    have hdrop : (upgradeWord ++ d).drop 8 = d := by
      rw [← upgradeWord_length, List.drop_left]
    rw [hdrop, Bool.and_eq_true] at hd
    refine ⟨d, rfl, ?_, hd.2⟩
    intro hnil
    rw [hnil] at hd
    simp at hd
  · rintro ⟨d, rfl, hne, hdig⟩
    have hdrop : (upgradeWord ++ d).drop 8 = d := by
      rw [← upgradeWord_length, List.drop_left]
    rw [hdrop, Bool.and_eq_true]
    exact ⟨⟨d, rfl⟩, by simp [List.isEmpty_iff, hne, hdig]⟩

/-- The concatenation `p ++ ".upgrade." ++ U` never matches the suffix regex
at position 0: any match would put a non-digit inside the all-digit tail. -/
theorem matchAt_append_suffix (p U : List Char) :
    matchAt (p ++ upgradeSuffix U) = false := by
  by_contra h
  rw [Bool.not_eq_false, matchAt_iff] at h
  obtain ⟨d, heq, hne, hdig⟩ := h
  unfold upgradeSuffix at heq
  have hnd : ∀ c ∈ upgradeWord, c.isDigit = false := by decide
  rcases List.append_eq_append_iff.mp heq with ⟨a2, hW, hX⟩ | ⟨c2, hp, hd⟩
  · -- upgradeWord = p ++ a2 and '.' :: (upgradeWord ++ U) = a2 ++ d
    rcases a2 with _ | ⟨x, a3⟩
    · simp only [List.nil_append] at hX
      rw [← hX, List.all_cons, Bool.and_eq_true] at hdig
      exact absurd hdig.1 (by decide)
    · rw [List.cons_append] at hX
      injection hX with hx htail
      -- htail : upgradeWord ++ U = a3 ++ d
      have ha3 : a3.length ≤ 7 := by
        have := congrArg List.length hW
        simp only [List.length_append, List.length_cons, upgradeWord_length] at this
        omega
      rcases List.append_eq_append_iff.mp htail with ⟨b2, hA, hU⟩ | ⟨c3, hW3, hd3⟩
      · -- a3 = upgradeWord ++ b2: too long
        have := congrArg List.length hA
        simp only [List.length_append, upgradeWord_length] at this
        omega
      · -- upgradeWord = a3 ++ c3 and d = c3 ++ U
        rcases c3 with _ | ⟨y, c4⟩
        · have := congrArg List.length hW3
          simp only [List.length_append, List.length_nil, upgradeWord_length] at this
          omega
        · have hy : y ∈ upgradeWord := by
            rw [hW3]
            exact List.mem_append_right a3 (List.mem_cons_self y c4)
          have hyd : y.isDigit = true := by
            rw [hd3, List.all_append, Bool.and_eq_true, List.all_cons, Bool.and_eq_true] at hdig
            exact hdig.1.1
          rw [hnd y hy] at hyd
          exact Bool.false_ne_true hyd
  · -- d = c2 ++ '.' :: (upgradeWord ++ U): the '.' is not a digit
    rw [hd, List.all_append, Bool.and_eq_true, List.all_cons, Bool.and_eq_true] at hdig
    exact absurd hdig.2.1 (by decide)

/-- On a string of the form `p ++ ".upgrade." ++ U` with `U` a nonempty run
of digits, the leftmost regex match starts right after `p ++ "."`. -/
theorem findMatchStart_append_suffix (p U : List Char)
    (hne : U ≠ []) (hdig : U.all Char.isDigit = true) :
    findMatchStart (p ++ upgradeSuffix U) = some (p.length + 1) := by
  induction p with
  | nil =>
    have h0 : matchAt ([] ++ upgradeSuffix U) = false := matchAt_append_suffix [] U
    simp only [List.nil_append] at h0 ⊢
    unfold upgradeSuffix at h0 ⊢
    rw [findMatchStart, h0]
    have hm : matchAt (upgradeWord ++ U) = true := by
      rw [matchAt_iff]
      exact ⟨U, rfl, hne, hdig⟩
    have hW : upgradeWord ++ U = 'u' :: (['p', 'g', 'r', 'a', 'd', 'e', '.'] ++ U) := rfl
    rw [hW] at hm
    rw [show (upgradeWord ++ U) = 'u' :: (['p', 'g', 'r', 'a', 'd', 'e', '.'] ++ U) from rfl,
      findMatchStart, hm]
    rfl
  | cons c p ih =>
    have h0 : matchAt (c :: (p ++ upgradeSuffix U)) = false := by
      have h1 := matchAt_append_suffix (c :: p) U
      rwa [List.cons_append] at h1
    rw [List.cons_append, findMatchStart, h0]
    simp only [Bool.false_eq_true, if_false, ih, Option.map_some']
    simp [List.length_cons]

/-- Stripping undoes appending the suffix. -/
theorem stripUpgradeSuffix_append (p U : List Char)
    (hne : U ≠ []) (hdig : U.all Char.isDigit = true) :
    stripUpgradeSuffix (p ++ upgradeSuffix U) = some p := by
  unfold stripUpgradeSuffix
  rw [findMatchStart_append_suffix p U hne hdig]
  show goSliceTo (p ++ upgradeSuffix U) (((p.length + 1 : Nat) : Int) - 1) = some p
  unfold goSliceTo
  rw [if_pos]
  · congr 1
    have h1 : (((p.length + 1 : Nat) : Int) - 1).toNat = p.length := by omega
    rw [h1]
    exact List.take_left p (upgradeSuffix U)
  · constructor
    · omega
    · rw [List.length_append]
      push_cast
      omega

/-- When the root already fits, truncation is the identity. -/
theorem truncateForSuffix_of_fits (p : List Char) (suffixLen : Nat)
    (hlen : (p.length : Int) + (suffixLen : Int) ≤ DNS1123SubdomainMaxLength) :
    truncateForSuffix p suffixLen = some p := by
  unfold truncateForSuffix
  rw [if_neg (by omega)]

/-- Every defined truncation result fits in the length budget. -/
theorem truncateForSuffix_length (machineName mn : List Char) (suffixLen : Nat)
    (h : truncateForSuffix machineName suffixLen = some mn) :
    (mn.length : Int) + (suffixLen : Int) ≤ DNS1123SubdomainMaxLength := by
  unfold truncateForSuffix at h
  by_cases hex : 0 < (machineName.length : Int) + (suffixLen : Int) - DNS1123SubdomainMaxLength
  · rw [if_pos hex] at h
    unfold goSliceTo at h
    by_cases hguard : 0 ≤ (machineName.length : Int) -
        ((machineName.length : Int) + (suffixLen : Int) - DNS1123SubdomainMaxLength) ∧
        (machineName.length : Int) -
        ((machineName.length : Int) + (suffixLen : Int) - DNS1123SubdomainMaxLength) ≤
        (machineName.length : Int)
    · rw [if_pos hguard] at h
      simp only [Option.some.injEq] at h
      have htake : mn.length = min (((machineName.length : Int) -
          ((machineName.length : Int) + (suffixLen : Int) -
            DNS1123SubdomainMaxLength)).toNat) machineName.length := by
        rw [← h]
        exact List.length_take _ _
      unfold DNS1123SubdomainMaxLength at *
      omega
    · rw [if_neg hguard] at h
      exact absurd h (by simp)
  · rw [if_neg hex] at h
    simp only [Option.some.injEq] at h
    subst h
    omega

/-- Every defined result of `generateReplacementMachineName` splits as a root
followed by the upgrade suffix, with total length at most 253. -/
theorem generateReplacementMachineName_shape (n U r : List Char)
    (h : generateReplacementMachineName n U = some r) :
    ∃ p, r = p ++ upgradeSuffix U ∧
      (p.length : Int) + ((upgradeSuffix U).length : Int) ≤ DNS1123SubdomainMaxLength := by
  unfold generateReplacementMachineName at h
  rcases h1 : stripUpgradeSuffix n with _ | machineName
  · rw [h1] at h
    exact absurd h (by simp)
  · rw [h1] at h
    simp only at h
    rcases h2 : truncateForSuffix machineName (upgradeSuffix U).length with _ | mn
    · rw [h2] at h
      exact absurd h (by simp)
    · rw [h2] at h
      simp only [Option.some.injEq] at h
      exact ⟨mn, h.symm, truncateForSuffix_length machineName mn _ h2⟩

/-- Strings that already have the shape `p ++ suffix` (with room to spare)
are fixed points of `generateReplacementMachineName`. -/
theorem generateReplacementMachineName_fixed (p U : List Char)
    (hne : U ≠ []) (hdig : U.all Char.isDigit = true)
    (hlen : (p.length : Int) + ((upgradeSuffix U).length : Int) ≤ DNS1123SubdomainMaxLength) :
    generateReplacementMachineName (p ++ upgradeSuffix U) U = some (p ++ upgradeSuffix U) := by
  unfold generateReplacementMachineName
  rw [stripUpgradeSuffix_append p U hne hdig]
  simp only
  rw [truncateForSuffix_of_fits p _ hlen]

/-- C4 helper: every defined result has length at most 253. -/
theorem generateReplacementMachineName_length (n U r : List Char)
    (h : generateReplacementMachineName n U = some r) :
    r.length ≤ 253 := by
  obtain ⟨p, rfl, hlen⟩ := generateReplacementMachineName_shape n U r h
  rw [List.length_append]
  unfold DNS1123SubdomainMaxLength at hlen
  omega

/-- C3: For every original machine name `n` and every upgrade-id `U` (a
nonempty string of digits), `generateReplacementMachineName` is idempotent:
applying it to its own (defined) result returns that result unchanged.
Runs that panic (`none`, a Go slice-bounds panic on degenerate names) are
propagated by `bind` and trivially idempotent. -/
theorem generateReplacementMachineName_idempotent (n U : List Char)
    (hne : U ≠ []) (hdig : U.all Char.isDigit = true) :
    (generateReplacementMachineName n U).bind
        (fun m => generateReplacementMachineName m U) =
      generateReplacementMachineName n U := by
  rcases h : generateReplacementMachineName n U with _ | r
  · rfl
  · obtain ⟨p, rfl, hlen⟩ := generateReplacementMachineName_shape n U r h
    rw [Option.some_bind]
    exact generateReplacementMachineName_fixed p U hne hdig hlen

/-- C3 witness: concrete evaluation of the idempotence theorem at the
machine name `a` and upgrade-id `1`. -/
theorem generateReplacementMachineName_idempotent_witness :
    (['1'] ≠ [] ∧ ['1'].all Char.isDigit = true) ∧
      (generateReplacementMachineName ['a'] ['1']).bind
          (fun m => generateReplacementMachineName m ['1']) =
        generateReplacementMachineName ['a'] ['1'] :=
  ⟨⟨by decide, by decide⟩,
    generateReplacementMachineName_idempotent ['a'] ['1'] (by decide) (by decide)⟩

/-- C4: every name generateReplacementMachineName actually returns (i.e.
every run that does not end in a Go slice-bounds panic) has length at most
253 characters. -/
theorem generateReplacementMachineName_length_le (n U r : List Char)
    (h : generateReplacementMachineName n U = some r) :
    r.length ≤ 253 :=
  generateReplacementMachineName_length n U r h

/-- C4 witness: concrete evaluation at machine name `a`, upgrade-id `1`. -/
theorem generateReplacementMachineName_length_le_witness :
    generateReplacementMachineName ['a'] ['1'] =
        some ['a', '.', 'u', 'p', 'g', 'r', 'a', 'd', 'e', '.', '1'] ∧
      (['a', '.', 'u', 'p', 'g', 'r', 'a', 'd', 'e', '.', '1'] : List Char).length ≤ 253 :=
  ⟨by decide, generateReplacementMachineName_length_le ['a'] ['1'] _ (by decide)⟩

/-! ### C7: resourceExists -/

/-- C7: `resourceExists(ref)` returns true iff the get of that object
returns a non-error result; a not-found error yields `(false, nil)`; any
other error is propagated. -/
theorem resourceExists_spec (get : ObjectReference → Except ApiError Unit)
    (ref : ObjectReference) :
    ((resourceExists get ref).1 = true ↔ ∃ u, get ref = .ok u) ∧
    (get ref = .error .notFound → resourceExists get ref = (false, none)) ∧
    (∀ e, get ref = .error e → e.isNotFound = false →
      resourceExists get ref = (false, some e)) := by
  unfold resourceExists
  rcases h : get ref with e | u
  · rcases e with _ | _ | msg <;>
      simp [ApiError.isNotFound]
  · simp

/-- C7 witness: the specification applied to a get oracle that reports
not-found. -/
theorem resourceExists_spec_witness :
    resourceExists (fun _ => Except.error ApiError.notFound)
        ⟨"v1", "Machine", "ns", "m"⟩ = (false, none) :=
  (resourceExists_spec (fun _ => Except.error ApiError.notFound)
    ⟨"v1", "Machine", "ns", "m"⟩).2.1 rfl

/-! ### C2: etcdctlForPod argument duplication -/

/-- C2 (code bug evidence): running `member remove cafe` against the pod at
`10.0.0.1`, the caller's args appear both inside the `sh -c` string and a
second time as extra argv entries, so the command passed to `PodExec` does
not contain them exactly once. -/
theorem etcdctlForPod_args_duplicated :
    etcdctlForPodCommand "10.0.0.1" ["member", "remove", "cafe"] =
      ["sh", "-c",
        "ETCDCTL_API=3 etcdctl --cacert /etc/kubernetes/pki/etcd/ca.crt --cert /etc/kubernetes/pki/etcd/peer.crt --key /etc/kubernetes/pki/etcd/peer.key --endpoints https://10.0.0.1:2379 member remove cafe",
        "member", "remove", "cafe"] ∧
    (etcdctlForPodCommand "10.0.0.1" ["member", "remove", "cafe"]).length = 6 := by
  constructor <;> rfl

/-! ### C6: updateKubeadmKubernetesVersion -/

theorem goAListGet_insert_self {α : Type} (m : List (String × α)) (k : String) (v : α) :
    goAListGet (goAListInsert m k v) k = some v := by
  induction m with
  | nil => simp [goAListInsert, goAListGet]
  | cons kv rest ih =>
    obtain ⟨k2, v2⟩ := kv
    by_cases h : k2 = k
    · subst h
      simp [goAListInsert, goAListGet]
    · simp [goAListInsert, goAListGet, h, ih]

theorem goAListGet_insert_ne {α : Type} (m : List (String × α)) (k k2 : String) (v : α)
    (h : k2 ≠ k) : goAListGet (goAListInsert m k v) k2 = goAListGet m k2 := by
  induction m with
  | nil => simp [goAListInsert, goAListGet, Ne.symm h]
  | cons kv rest ih =>
    obtain ⟨k3, v3⟩ := kv
    by_cases h3 : k3 = k
    · subst h3
      simp [goAListInsert, goAListGet, Ne.symm h]
    · by_cases h4 : k3 = k2 <;> simp [goAListInsert, goAListGet, h3, h4, h, ih]

/-- C6: if `data.ClusterConfiguration` deserializes to a mapping `m`, the
function succeeds; the argument configmap is returned unmodified (only the
deep copy is mutated); and the returned configmap's `ClusterConfiguration`
is a mapping whose `kubernetesVersion` equals the version argument while
every other key maps to the same value as in `m`. -/
theorem updateKubeadmKubernetesVersion_spec (original : V1ConfigMap) (version : String)
    (m : List (String × YamlValue))
    (h : goAListGet original.data "ClusterConfiguration" = some (.mapping m)) :
    ∃ final updated m2,
      updateKubeadmKubernetesVersion original version = .ok (final, updated) ∧
      final = original ∧
      goAListGet updated.data "ClusterConfiguration" = some (.mapping m2) ∧
      goAListGet m2 "kubernetesVersion" = some (.str version) ∧
      ∀ k, k ≠ "kubernetesVersion" → goAListGet m2 k = goAListGet m k := by
  refine ⟨original,
    { original with
      data := goAListInsert original.data "ClusterConfiguration"
        (YamlDoc.mapping (goAListInsert m "kubernetesVersion" (YamlValue.str version))) },
    goAListInsert m "kubernetesVersion" (YamlValue.str version), ?_, rfl, ?_, ?_, ?_⟩
  · simp only [updateKubeadmKubernetesVersion, deepCopyConfigMap, yamlMarshalMap, h]
    rfl
  · exact goAListGet_insert_self original.data "ClusterConfiguration" _
  · exact goAListGet_insert_self m "kubernetesVersion" _
  · intro k hk
    exact goAListGet_insert_ne m "kubernetesVersion" k _ hk

/-- C6 witness: the specification applied to a configmap whose
`ClusterConfiguration` holds `apiServer` and `kubernetesVersion` keys. -/
theorem updateKubeadmKubernetesVersion_spec_witness :
    ∃ final updated m2,
      updateKubeadmKubernetesVersion
          ⟨"kubeadm-config", "7",
            [("ClusterConfiguration",
              .mapping [("apiServer", .str "x"), ("kubernetesVersion", .str "v1.16.3")])]⟩
          "v1.17.0" = .ok (final, updated) ∧
      final = ⟨"kubeadm-config", "7",
        [("ClusterConfiguration",
          .mapping [("apiServer", .str "x"), ("kubernetesVersion", .str "v1.16.3")])]⟩ ∧
      goAListGet updated.data "ClusterConfiguration" = some (.mapping m2) ∧
      goAListGet m2 "kubernetesVersion" = some (.str "v1.17.0") ∧
      ∀ k, k ≠ "kubernetesVersion" →
        goAListGet m2 k =
          goAListGet [("apiServer", YamlValue.str "x"),
            ("kubernetesVersion", YamlValue.str "v1.16.3")] k :=
  updateKubeadmKubernetesVersion_spec _ "v1.17.0" _ rfl

/-! ### C9 and C10: updateKubeletConfigMapIfNeeded -/

/-- C9 counterexample: called with version `1.0` when no kubelet configmap
exists, the function looks up `kubelet-config-1.18446744073709551615`
(the `uint64` wrap-around of `Minor-1`), not `kubelet-config-1.-1` as the
claim states. -/
theorem updateKubeletConfigMap_minorZero_counterexample :
    (updateKubeletConfigMapIfNeeded kubeletEnvAllNotFound ⟨1, 0, 0, [], []⟩).2 =
      [.getCM "kubelet-config-1.0",
        .getCM "kubelet-config-1.18446744073709551615"] ∧
    KubeletAction.getCM "kubelet-config-1.-1" ∉
      (updateKubeletConfigMapIfNeeded kubeletEnvAllNotFound ⟨1, 0, 0, [], []⟩).2 := by
  constructor
  · rfl
  · decide

/-- The trailing create phase always records exactly one create call, of the
renamed configmap with cleared resource version. -/
theorem kubeletCreatePhase_trace (env : KubeletEnv) (cm : KubeletConfigMap)
    (desiredName : String) (trace : List KubeletAction) :
    (kubeletCreatePhase env cm desiredName trace).2 =
      trace ++ [.createCM { cm with name := desiredName, resourceVersion := "" }] := by
  simp only [kubeletCreatePhase]
  cases env.createConfigMap { cm with name := desiredName, resourceVersion := "" } with
  | error e => by_cases h : e.isAlreadyExists = true <;> simp [h]
  | ok u => rfl

/-- The trailing create phase either succeeds or fails with a create error
for the desired name. -/
theorem kubeletCreatePhase_result (env : KubeletEnv) (cm : KubeletConfigMap)
    (desiredName : String) (trace : List KubeletAction) :
    (kubeletCreatePhase env cm desiredName trace).1 = .ok () ∨
      ∃ c, (kubeletCreatePhase env cm desiredName trace).1 =
        .error (.createFailed desiredName c) := by
  simp only [kubeletCreatePhase]
  cases env.createConfigMap { cm with name := desiredName, resourceVersion := "" } with
  | error e =>
    by_cases h : e.isAlreadyExists = true
    · left; simp [h]
    · right; exact ⟨e, by simp [h]⟩
  | ok u => left; rfl

/-- C9 amended: with `Minor = 0` and the desired configmap absent, the
previous-minor lookup uses the name
`kubelet-config-M.18446744073709551615` (`uint64` wrap-around of `0-1`). -/
theorem updateKubeletConfigMap_minorZero_wraps (env : KubeletEnv)
    (version : SemVersion) (hminor : version.minor = 0) (e : ApiError)
    (h1 : env.getConfigMap ("kubelet-config-" ++ toString version.major ++ "." ++
      toString version.minor) = .error e)
    (h2 : e.isNotFound = true) :
    ∃ rest,
      (updateKubeletConfigMapIfNeeded env version).2 =
        .getCM ("kubelet-config-" ++ toString version.major ++ "." ++
          toString version.minor) ::
        .getCM ("kubelet-config-" ++ toString version.major ++ "." ++
          "18446744073709551615") ::
        rest := by
  have hwrap : toString (uint64SubOne version.minor) = "18446744073709551615" := by
    rw [hminor]; decide
  simp only [updateKubeletConfigMapIfNeeded, h1, h2, hwrap]
  simp only [Bool.true_eq_false, if_false]
  cases env.getConfigMap ("kubelet-config-" ++ toString version.major ++ "." ++
      "18446744073709551615") with
  | error e2 =>
    by_cases hnf : e2.isNotFound = true
    · exact ⟨[], by simp [hnf]⟩
    · rw [Bool.not_eq_true] at hnf
      refine ⟨[.createCM ⟨"kubelet-config-" ++ toString version.major ++ "." ++
        toString version.minor, "", ""⟩], ?_⟩
      simp only [hnf, Bool.false_eq_true, if_false]
      rw [kubeletCreatePhase_trace]
      rfl
  | ok cm =>
    refine ⟨[.createCM { cm with
      name := "kubelet-config-" ++ toString version.major ++ "." ++ toString version.minor,
      resourceVersion := "" }], ?_⟩
    rw [kubeletCreatePhase_trace]
    rfl

/-- C9 amended witness: the wrap-around lookup at version 1.0 with an
all-not-found configmap API. -/
theorem updateKubeletConfigMap_minorZero_wraps_witness :
    ∃ rest,
      (updateKubeletConfigMapIfNeeded kubeletEnvAllNotFound ⟨1, 0, 0, [], []⟩).2 =
        .getCM ("kubelet-config-" ++ toString (SemVersion.major ⟨1, 0, 0, [], []⟩) ++ "." ++
          toString (SemVersion.minor ⟨1, 0, 0, [], []⟩)) ::
        .getCM ("kubelet-config-" ++ toString (SemVersion.major ⟨1, 0, 0, [], []⟩) ++ "." ++
          "18446744073709551615") ::
        rest :=
  updateKubeletConfigMap_minorZero_wraps kubeletEnvAllNotFound ⟨1, 0, 0, [], []⟩ rfl
    .notFound rfl rfl

/-- C10: when the desired configmap is absent and the previous-minor fetch
fails with a non-not-found error, that error is not propagated: the function
goes on to create the desired configmap from the zero-valued fetch result,
and its outcome is determined by the create call alone. -/
theorem updateKubeletConfigMap_ignores_previous_get_error (env : KubeletEnv)
    (version : SemVersion) (e1 e2 : ApiError)
    (h1 : env.getConfigMap ("kubelet-config-" ++ toString version.major ++ "." ++
      toString version.minor) = .error e1)
    (h2 : e1.isNotFound = true)
    (h3 : env.getConfigMap ("kubelet-config-" ++ toString version.major ++ "." ++
      toString (uint64SubOne version.minor)) = .error e2)
    (h4 : e2.isNotFound = false) :
    (updateKubeletConfigMapIfNeeded env version).2 =
      [.getCM ("kubelet-config-" ++ toString version.major ++ "." ++
          toString version.minor),
        .getCM ("kubelet-config-" ++ toString version.major ++ "." ++
          toString (uint64SubOne version.minor)),
        .createCM ⟨"kubelet-config-" ++ toString version.major ++ "." ++
          toString version.minor, "", ""⟩] ∧
    ((updateKubeletConfigMapIfNeeded env version).1 = .ok () ∨
      ∃ c, (updateKubeletConfigMapIfNeeded env version).1 =
        .error (.createFailed ("kubelet-config-" ++ toString version.major ++ "." ++
          toString version.minor) c)) := by
  simp only [updateKubeletConfigMapIfNeeded, h1, h2, h3, h4, Bool.true_eq_false,
    Bool.false_eq_true, if_false]
  constructor
  · rw [kubeletCreatePhase_trace]
    rfl
  · exact kubeletCreatePhase_result env emptyKubeletConfigMap _ _

/-- C10 witness: a get oracle that reports not-found for `kubelet-config-1.17`
and an internal error for `kubelet-config-1.16`; the create call decides the
outcome and the internal error never surfaces. -/
theorem updateKubeletConfigMap_ignores_previous_get_error_witness :
    (updateKubeletConfigMapIfNeeded
        ⟨fun n => if n = "kubelet-config-1.17" then .error .notFound
            else .error (.other "boom"),
          fun _ => .ok ()⟩ ⟨1, 17, 0, [], []⟩).2 =
      [.getCM "kubelet-config-1.17", .getCM "kubelet-config-1.16",
        .createCM ⟨"kubelet-config-1.17", "", ""⟩] ∧
    ((updateKubeletConfigMapIfNeeded
        ⟨fun n => if n = "kubelet-config-1.17" then .error .notFound
            else .error (.other "boom"),
          fun _ => .ok ()⟩ ⟨1, 17, 0, [], []⟩).1 = .ok () ∨
      ∃ c, (updateKubeletConfigMapIfNeeded
        ⟨fun n => if n = "kubelet-config-1.17" then .error .notFound
            else .error (.other "boom"),
          fun _ => .ok ()⟩ ⟨1, 17, 0, [], []⟩).1 =
        .error (.createFailed "kubelet-config-1.17" c)) := by
  have h := updateKubeletConfigMap_ignores_previous_get_error
    ⟨fun n => if n = "kubelet-config-1.17" then .error .notFound
        else .error (.other "boom"),
      fun _ => .ok ()⟩ ⟨1, 17, 0, [], []⟩ .notFound (.other "boom")
    rfl rfl rfl rfl
  exact h

/-! ### Comparator laws -/

theorem natCompareGo_eq_lt (a b : Nat) : natCompareGo a b = .lt ↔ a < b := by
  unfold natCompareGo
  split_ifs with h1 h2 <;> simp <;> omega

theorem natCompareGo_eq_eq (a b : Nat) : natCompareGo a b = .eq ↔ a = b := by
  unfold natCompareGo
  split_ifs with h1 h2 <;> simp <;> omega

theorem natCompareGo_eq_gt (a b : Nat) : natCompareGo a b = .gt ↔ b < a := by
  unfold natCompareGo
  split_ifs with h1 h2 <;> simp <;> omega

theorem natCompareGo_isCmp : IsCmp natCompareGo := by
  constructor
  · intro a b
    rcases Nat.lt_trichotomy a b with h | h | h
    · rw [(natCompareGo_eq_lt a b).mpr h, (natCompareGo_eq_gt b a).mpr h]
      rfl
    · rw [(natCompareGo_eq_eq a b).mpr h, (natCompareGo_eq_eq b a).mpr h.symm]
      rfl
    · rw [(natCompareGo_eq_gt a b).mpr h, (natCompareGo_eq_lt b a).mpr h]
      rfl
  · intro a b c h1 h2
    rw [natCompareGo_eq_lt] at h1 h2 ⊢
    omega
  · intro a b c h
    rw [natCompareGo_eq_eq] at h
    rw [h]

theorem IsCmp.eqR {α : Type} {cmp : α → α → Ordering} (h : IsCmp cmp)
    {a b : α} (hab : cmp a b = .eq) (c : α) : cmp c a = cmp c b := by
  rw [h.swap c a, h.swap c b, h.eqL a b c hab]

theorem IsCmp.compare_self {α : Type} {cmp : α → α → Ordering} (h : IsCmp cmp)
    (a : α) : cmp a a = .eq := by
  have hs := h.swap a a
  rcases hc : cmp a a with _ | _ | _
  · rw [hc] at hs
    exact absurd hs (by decide)
  · rfl
  · rw [hc] at hs
    exact absurd hs (by decide)

theorem IsCmp.leTrans {α : Type} {cmp : α → α → Ordering} (h : IsCmp cmp)
    (a b c : α) (h1 : cmp a b ≠ .gt) (h2 : cmp b c ≠ .gt) : cmp a c ≠ .gt := by
  rcases hab : cmp a b with _ | _ | _
  · rcases hbc : cmp b c with _ | _ | _
    · rw [h.transLt a b c hab hbc]
      exact fun hx => Ordering.noConfusion hx
    · rw [← h.eqR hbc a, hab]
      exact fun hx => Ordering.noConfusion hx
    · exact absurd hbc h2
  · rw [h.eqL a b c hab]
    exact h2
  · exact absurd hab h1

theorem IsCmp.geTrans {α : Type} {cmp : α → α → Ordering} (h : IsCmp cmp)
    (a b c : α) (h1 : cmp a b ≠ .lt) (h2 : cmp b c ≠ .lt) : cmp a c ≠ .lt := by
  intro hac
  have h3 : cmp c b ≠ .gt := by
    rw [h.swap c b]
    rcases hcb : cmp b c with _ | _ | _ <;> simp [Ordering.swap]
    exact absurd hcb h2
  have h4 : cmp b a ≠ .gt := by
    rw [h.swap b a]
    rcases hba : cmp a b with _ | _ | _ <;> simp [Ordering.swap]
    exact absurd hba h1
  have h5 := h.leTrans c b a h3 h4
  rw [h.swap c a, hac] at h5
  exact h5 rfl

theorem isCmp_comap {α β : Type} {cmp : β → β → Ordering} (f : α → β) (h : IsCmp cmp) :
    IsCmp (fun a b => cmp (f a) (f b)) := by
  constructor
  · intro a b
    exact h.swap (f a) (f b)
  · intro a b c
    exact h.transLt (f a) (f b) (f c)
  · intro a b c
    exact h.eqL (f a) (f b) (f c)

theorem charCompareGo_isCmp : IsCmp charCompareGo :=
  isCmp_comap Char.toNat natCompareGo_isCmp

theorem ordThen_swap (a b : Ordering) : (ordThen a b).swap = ordThen a.swap b.swap := by
  cases a <;> rfl

theorem ordThen_eq_lt {a b : Ordering} :
    ordThen a b = .lt ↔ a = .lt ∨ (a = .eq ∧ b = .lt) := by
  cases a <;> simp [ordThen]

theorem ordThen_eq_eq {a b : Ordering} : ordThen a b = .eq ↔ a = .eq ∧ b = .eq := by
  cases a <;> simp [ordThen]

theorem isCmp_ordThen {α : Type} {c1 c2 : α → α → Ordering}
    (h1 : IsCmp c1) (h2 : IsCmp c2) : IsCmp (fun a b => ordThen (c1 a b) (c2 a b)) := by
  constructor
  · intro a b
    show ordThen (c1 a b) (c2 a b) = (ordThen (c1 b a) (c2 b a)).swap
    rw [h1.swap a b, h2.swap a b, ordThen_swap]
  · intro a b c hab hbc
    rcases ordThen_eq_lt.mp hab with ha | ⟨ha, ha2⟩ <;>
      rcases ordThen_eq_lt.mp hbc with hb | ⟨hb, hb2⟩
    · exact ordThen_eq_lt.mpr (Or.inl (h1.transLt a b c ha hb))
    · exact ordThen_eq_lt.mpr (Or.inl (by rw [← h1.eqR hb a]; exact ha))
    · exact ordThen_eq_lt.mpr (Or.inl (by rw [h1.eqL a b c ha]; exact hb))
    · exact ordThen_eq_lt.mpr (Or.inr ⟨by rw [h1.eqL a b c ha]; exact hb,
        h2.transLt a b c ha2 hb2⟩)
  · intro a b c hab
    obtain ⟨ha, hb⟩ := ordThen_eq_eq.mp hab
    show ordThen (c1 a c) (c2 a c) = ordThen (c1 b c) (c2 b c)
    rw [h1.eqL a b c ha, h2.eqL a b c hb]

theorem listCompareWith_swap {α : Type} {cmp : α → α → Ordering} (h : IsCmp cmp) :
    ∀ l1 l2 : List α, listCompareWith cmp l1 l2 = (listCompareWith cmp l2 l1).swap
  | [], [] => rfl
  | [], _ :: _ => rfl
  | _ :: _, [] => rfl
  | a :: as, b :: bs => by
    simp only [listCompareWith]
    rw [listCompareWith_swap h as bs, h.swap a b, ordThen_swap]

theorem listCompareWith_transLt {α : Type} {cmp : α → α → Ordering} (h : IsCmp cmp) :
    ∀ l1 l2 l3 : List α, listCompareWith cmp l1 l2 = .lt →
      listCompareWith cmp l2 l3 = .lt → listCompareWith cmp l1 l3 = .lt := by
  intro l1
  induction l1 with
  | nil =>
    intro l2 l3 h1 h2
    cases l2 with
    | nil => exact Ordering.noConfusion h1
    | cons b bs =>
      cases l3 with
      | nil => exact Ordering.noConfusion h2
      | cons c cs => rfl
  | cons a as ih =>
    intro l2 l3 h1 h2
    cases l2 with
    | nil => exact Ordering.noConfusion h1
    | cons b bs =>
      cases l3 with
      | nil => exact Ordering.noConfusion h2
      | cons c cs =>
        simp only [listCompareWith] at h1 h2 ⊢
        rcases ordThen_eq_lt.mp h1 with ha | ⟨ha, ha2⟩ <;>
          rcases ordThen_eq_lt.mp h2 with hb | ⟨hb, hb2⟩
        · exact ordThen_eq_lt.mpr (Or.inl (h.transLt a b c ha hb))
        · exact ordThen_eq_lt.mpr (Or.inl (by rw [← h.eqR hb a]; exact ha))
        · exact ordThen_eq_lt.mpr (Or.inl (by rw [h.eqL a b c ha]; exact hb))
        · exact ordThen_eq_lt.mpr (Or.inr ⟨by rw [h.eqL a b c ha]; exact hb,
            ih bs cs ha2 hb2⟩)

theorem listCompareWith_eqL {α : Type} {cmp : α → α → Ordering} (h : IsCmp cmp) :
    ∀ l1 l2 l3 : List α, listCompareWith cmp l1 l2 = .eq →
      listCompareWith cmp l1 l3 = listCompareWith cmp l2 l3 := by
  intro l1
  induction l1 with
  | nil =>
    intro l2 l3 h1
    cases l2 with
    | nil => rfl
    | cons b bs => exact Ordering.noConfusion h1
  | cons a as ih =>
    intro l2 l3 h1
    cases l2 with
    | nil => exact Ordering.noConfusion h1
    | cons b bs =>
      simp only [listCompareWith] at h1
      obtain ⟨ha, hrest⟩ := ordThen_eq_eq.mp h1
      cases l3 with
      | nil => rfl
      | cons c cs =>
        simp only [listCompareWith]
        rw [h.eqL a b c ha, ih bs cs hrest]

theorem listCompareWith_isCmp {α : Type} {cmp : α → α → Ordering} (h : IsCmp cmp) :
    IsCmp (listCompareWith cmp) :=
  ⟨listCompareWith_swap h, listCompareWith_transLt h, listCompareWith_eqL h⟩

theorem prCompare_isCmp : IsCmp prCompare := by
  have hl := listCompareWith_isCmp charCompareGo_isCmp
  constructor
  · intro v o
    obtain ⟨vs, vn, vb⟩ := v
    obtain ⟨os, on2, ob⟩ := o
    cases vb <;> cases ob
    · show listCompareWith charCompareGo vs os = (listCompareWith charCompareGo os vs).swap
      exact hl.swap vs os
    · show Ordering.gt = Ordering.lt.swap
      rfl
    · show Ordering.lt = Ordering.gt.swap
      rfl
    · show natCompareGo vn on2 = (natCompareGo on2 vn).swap
      exact natCompareGo_isCmp.swap vn on2
  · intro a b c h1 h2
    obtain ⟨as2, an, ab⟩ := a
    obtain ⟨bs2, bn, bb⟩ := b
    obtain ⟨cs2, cn, cb⟩ := c
    cases ab <;> cases bb <;> cases cb
    · exact hl.transLt as2 bs2 cs2 h1 h2
    · exact Ordering.noConfusion (show Ordering.gt = Ordering.lt from h2)
    · exact Ordering.noConfusion (show Ordering.gt = Ordering.lt from h1)
    · exact Ordering.noConfusion (show Ordering.gt = Ordering.lt from h1)
    · show Ordering.lt = Ordering.lt
      rfl
    · exact Ordering.noConfusion (show Ordering.gt = Ordering.lt from h2)
    · show Ordering.lt = Ordering.lt
      rfl
    · exact natCompareGo_isCmp.transLt an bn cn h1 h2
  · intro a b c h1
    obtain ⟨as2, an, ab⟩ := a
    obtain ⟨bs2, bn, bb⟩ := b
    obtain ⟨cs2, cn, cb⟩ := c
    cases ab <;> cases bb <;> cases cb
    · exact hl.eqL as2 bs2 cs2 h1
    · show Ordering.gt = Ordering.gt
      rfl
    · exact Ordering.noConfusion (show Ordering.gt = Ordering.eq from h1)
    · exact Ordering.noConfusion (show Ordering.gt = Ordering.eq from h1)
    · exact Ordering.noConfusion (show Ordering.lt = Ordering.eq from h1)
    · exact Ordering.noConfusion (show Ordering.lt = Ordering.eq from h1)
    · show Ordering.lt = Ordering.lt
      rfl
    · show natCompareGo an cn = natCompareGo bn cn
      rw [(natCompareGo_eq_eq an bn).mp h1]

theorem preCompareGo_isCmp : IsCmp preCompareGo := by
  have hl := listCompareWith_isCmp prCompare_isCmp
  constructor
  · intro a b
    cases a with
    | nil =>
      cases b with
      | nil => rfl
      | cons y ys => rfl
    | cons x xs =>
      cases b with
      | nil => rfl
      | cons y ys => exact hl.swap (x :: xs) (y :: ys)
  · intro a b c h1 h2
    cases a with
    | nil =>
      cases b with
      | nil => exact Ordering.noConfusion h1
      | cons y ys => exact Ordering.noConfusion h1
    | cons x xs =>
      cases b with
      | nil =>
        cases c with
        | nil => exact Ordering.noConfusion h2
        | cons z zs => exact Ordering.noConfusion h2
      | cons y ys =>
        cases c with
        | nil => rfl
        | cons z zs => exact hl.transLt (x :: xs) (y :: ys) (z :: zs) h1 h2
  · intro a b c h1
    cases a with
    | nil =>
      cases b with
      | nil => rfl
      | cons y ys => exact Ordering.noConfusion h1
    | cons x xs =>
      cases b with
      | nil => exact Ordering.noConfusion h1
      | cons y ys =>
        cases c with
        | nil => rfl
        | cons z zs => exact hl.eqL (x :: xs) (y :: ys) (z :: zs) h1

theorem semverCompare_isCmp : IsCmp semverCompare :=
  isCmp_ordThen (isCmp_comap SemVersion.major natCompareGo_isCmp)
    (isCmp_ordThen (isCmp_comap SemVersion.minor natCompareGo_isCmp)
      (isCmp_ordThen (isCmp_comap SemVersion.patch natCompareGo_isCmp)
        (isCmp_comap SemVersion.pre preCompareGo_isCmp)))

theorem IsCmp.swap_not_gt {α : Type} {cmp : α → α → Ordering} (h : IsCmp cmp)
    {a b : α} (hx : cmp a b ≠ .lt) : cmp b a ≠ .gt := by
  rw [h.swap b a]
  intro hc
  rcases he : cmp a b with _ | _ | _
  · exact hx he
  · rw [he] at hc
    exact Ordering.noConfusion hc
  · rw [he] at hc
    exact Ordering.noConfusion hc

theorem IsCmp.swap_not_lt {α : Type} {cmp : α → α → Ordering} (h : IsCmp cmp)
    {a b : α} (hx : cmp a b ≠ .gt) : cmp b a ≠ .lt := by
  rw [h.swap b a]
  intro hc
  rcases he : cmp a b with _ | _ | _
  · rw [he] at hc
    exact Ordering.noConfusion hc
  · rw [he] at hc
    exact Ordering.noConfusion hc
  · exact hx he

/-! ### minMaxControlPlaneVersions lemmas -/

theorem semverEQ_eq_true (v o : SemVersion) :
    semverEQ v o = true ↔ semverCompare v o = .eq := by
  unfold semverEQ
  rcases hc : semverCompare v o with _ | _ | _ <;> simp

theorem semverLT_eq_true (v o : SemVersion) :
    semverLT v o = true ↔ semverCompare v o = .lt := by
  unfold semverLT
  rcases hc : semverCompare v o with _ | _ | _ <;> simp

theorem semverGT_eq_true (v o : SemVersion) :
    semverGT v o = true ↔ semverCompare v o = .gt := by
  unfold semverGT
  rcases hc : semverCompare v o with _ | _ | _ <;> simp

/-- Part of C8: a nil `spec.version` anywhere in the list forces an error. -/
theorem minMaxLoop_nil_error :
    ∀ (ms : List MachineV) (mn mx : SemVersion),
      (∃ m ∈ ms, m.version = none) →
      ∃ e, minMaxLoop ms mn mx = .error e := by
  intro ms
  induction ms with
  | nil =>
    intro mn mx h
    obtain ⟨m, hm, _⟩ := h
    exact absurd hm (List.not_mem_nil m)
  | cons machine rest ih =>
    intro mn mx h
    obtain ⟨m, hm, hver⟩ := h
    rcases hv : machine.version with _ | vs
    · simp only [minMaxLoop, hv]
      exact ⟨_, rfl⟩
    · have hm2 : m ∈ rest := by
        rcases List.mem_cons.mp hm with rfl | hm2
        · rw [hv] at hver
          exact Option.noConfusion hver
        · exact hm2
      simp only [minMaxLoop, hv]
      by_cases hne : vs ≠ []
      · rw [if_pos hne]
        rcases hp : parseTolerant vs with _ | mv
        · exact ⟨_, rfl⟩
        · exact ih _ _ ⟨m, hm2, hver⟩
      · rw [if_neg hne]
        exact ih mn mx ⟨m, hm2, hver⟩

/-- Part of C8: machines with an empty `spec.version` string do not affect
the computation at all. -/
theorem minMaxLoop_filter_empty :
    ∀ (ms : List MachineV) (mn mx : SemVersion),
      minMaxLoop ms mn mx =
        minMaxLoop (ms.filter (fun m => !(m.version == some []))) mn mx := by
  intro ms
  induction ms with
  | nil => intro mn mx; rfl
  | cons machine rest ih =>
    intro mn mx
    rcases hv : machine.version with _ | vs
    · have hkeep : (machine :: rest).filter (fun m => !(m.version == some [])) =
          machine :: rest.filter (fun m => !(m.version == some [])) := by
        rw [List.filter_cons_of_pos]
        simp [hv]
      rw [hkeep]
      simp only [minMaxLoop, hv]
    · rcases hvs : vs with _ | ⟨c, cs⟩
      · -- empty version string: the machine is dropped and skipped
        have hdrop : (machine :: rest).filter (fun m => !(m.version == some [])) =
            rest.filter (fun m => !(m.version == some [])) := by
          rw [List.filter_cons_of_neg]
          simp [hv, hvs]
        rw [hdrop]
        simp only [minMaxLoop, hv, hvs]
        rw [if_neg (by simp)]
        exact ih mn mx
      · have hkeep : (machine :: rest).filter (fun m => !(m.version == some [])) =
            machine :: rest.filter (fun m => !(m.version == some [])) := by
          rw [List.filter_cons_of_pos]
          simp [hv, hvs]
        rw [hkeep]
        simp only [minMaxLoop, hv, hvs]
        rw [if_pos (show (c :: cs : List Char) ≠ [] by simp)]
        rcases hp : parseTolerant (c :: cs) with _ | mv
        · rw [if_pos (show (c :: cs : List Char) ≠ [] by simp)]
        · rw [if_pos (show (c :: cs : List Char) ≠ [] by simp)]
          exact ih _ _

/-- The `min` accumulator invariant of the loop, once a non-sentinel value
has been installed: the result extends `mn0` downward by parsed versions
only, staying below `mn0` and every parsed version. -/
theorem minMaxLoop_min_spec :
    ∀ (ms : List MachineV) (mn0 mx0 mn mx : SemVersion),
      minMaxLoop ms mn0 mx0 = .ok (mn, mx) →
      (∀ v ∈ parsedVersions ms, semverCompare v unsetVersion ≠ .eq) →
      semverCompare mn0 unsetVersion ≠ .eq →
      (mn = mn0 ∨ mn ∈ parsedVersions ms) ∧
        semverCompare mn mn0 ≠ .gt ∧
        ∀ v ∈ parsedVersions ms, semverCompare mn v ≠ .gt := by
  intro ms
  induction ms with
  | nil =>
    intro mn0 mx0 mn mx hok hsf hst
    simp only [minMaxLoop, Except.ok.injEq, Prod.mk.injEq] at hok
    obtain ⟨rfl, rfl⟩ := hok
    refine ⟨Or.inl rfl, ?_, ?_⟩
    · rw [semverCompare_isCmp.compare_self]
      exact fun hx => Ordering.noConfusion hx
    · intro v hv
      exact absurd hv (List.not_mem_nil v)
  | cons machine rest ih =>
    intro mn0 mx0 mn mx hok hsf hst
    rcases hv : machine.version with _ | vs
    · simp only [minMaxLoop, hv] at hok
      exact Except.noConfusion hok
    · simp only [minMaxLoop, hv] at hok
      by_cases hne : vs ≠ []
      · rw [if_pos hne] at hok
        rcases hp : parseTolerant vs with _ | mv
        · rw [hp] at hok
          exact Except.noConfusion hok
        · rw [hp] at hok
          have hparsed : parsedVersions (machine :: rest) = mv :: parsedVersions rest := by
            simp only [parsedVersions, hv]
            rw [if_pos hne, hp]
          rw [hparsed] at hsf ⊢
          have hsv : semverCompare mv unsetVersion ≠ .eq :=
            hsf mv (List.mem_cons_self mv _)
          have hsf2 : ∀ v ∈ parsedVersions rest, semverCompare v unsetVersion ≠ .eq :=
            fun v hv2 => hsf v (List.mem_cons_of_mem mv hv2)
          have heq0 : semverEQ mn0 unsetVersion = false := by
            rcases hb : semverEQ mn0 unsetVersion
            · rfl
            · exact absurd ((semverEQ_eq_true mn0 unsetVersion).mp hb) hst
          by_cases hlt : semverLT mv mn0 = true
          · simp only [heq0, hlt, Bool.false_or, if_true] at hok
            obtain ⟨hmem, hle0, hall⟩ := ih mv _ mn mx hok hsf2 hsv
            have hltc : semverCompare mv mn0 = .lt := (semverLT_eq_true mv mn0).mp hlt
            refine ⟨?_, ?_, ?_⟩
            · rcases hmem with rfl | hmem2
              · exact Or.inr (List.mem_cons_self mn _)
              · exact Or.inr (List.mem_cons_of_mem mv hmem2)
            · refine semverCompare_isCmp.leTrans mn mv mn0 hle0 ?_
              rw [hltc]
              exact fun hx => Ordering.noConfusion hx
            · intro v hv3
              rcases List.mem_cons.mp hv3 with rfl | hv4
              · exact hle0
              · exact hall v hv4
          · have hltf : semverLT mv mn0 = false := by
              rcases hb : semverLT mv mn0
              · rfl
              · exact absurd hb hlt
            simp only [heq0, hltf, Bool.false_or, if_false] at hok
            obtain ⟨hmem, hle0, hall⟩ := ih mn0 _ mn mx hok hsf2 hst
            have hnlt : semverCompare mv mn0 ≠ .lt := by
              intro hx
              rw [(semverLT_eq_true mv mn0).mpr hx] at hltf
              exact Bool.noConfusion hltf
            have hle1 : semverCompare mn0 mv ≠ .gt := semverCompare_isCmp.swap_not_gt hnlt
            refine ⟨?_, hle0, ?_⟩
            · rcases hmem with rfl | hmem2
              · exact Or.inl rfl
              · exact Or.inr (List.mem_cons_of_mem mv hmem2)
            · intro v hv3
              rcases List.mem_cons.mp hv3 with rfl | hv4
              · exact semverCompare_isCmp.leTrans mn mn0 v hle0 hle1
              · exact hall v hv4
      · rw [if_neg hne] at hok
        have hparsed : parsedVersions (machine :: rest) = parsedVersions rest := by
          simp only [parsedVersions, hv]
          rw [if_neg hne]
        rw [hparsed] at hsf ⊢
        exact ih mn0 mx0 mn mx hok hsf hst

/-- The `min` accumulator invariant before any value is installed: the
result is the least parsed version. -/
theorem minMaxLoop_min_unstarted :
    ∀ (ms : List MachineV) (mn0 mx0 mn mx : SemVersion),
      minMaxLoop ms mn0 mx0 = .ok (mn, mx) →
      (∀ v ∈ parsedVersions ms, semverCompare v unsetVersion ≠ .eq) →
      semverCompare mn0 unsetVersion = .eq →
      parsedVersions ms ≠ [] →
      mn ∈ parsedVersions ms ∧ ∀ v ∈ parsedVersions ms, semverCompare mn v ≠ .gt := by
  intro ms
  induction ms with
  | nil =>
    intro mn0 mx0 mn mx hok hsf hst hne
    exact absurd rfl hne
  | cons machine rest ih =>
    intro mn0 mx0 mn mx hok hsf hst hnonempty
    rcases hv : machine.version with _ | vs
    · simp only [minMaxLoop, hv] at hok
      exact Except.noConfusion hok
    · simp only [minMaxLoop, hv] at hok
      by_cases hne : vs ≠ []
      · rw [if_pos hne] at hok
        rcases hp : parseTolerant vs with _ | mv
        · rw [hp] at hok
          exact Except.noConfusion hok
        · rw [hp] at hok
          have hparsed : parsedVersions (machine :: rest) = mv :: parsedVersions rest := by
            simp only [parsedVersions, hv]
            rw [if_pos hne, hp]
          rw [hparsed] at hsf ⊢
          have hsv : semverCompare mv unsetVersion ≠ .eq :=
            hsf mv (List.mem_cons_self mv _)
          have hsf2 : ∀ v ∈ parsedVersions rest, semverCompare v unsetVersion ≠ .eq :=
            fun v hv2 => hsf v (List.mem_cons_of_mem mv hv2)
          have heq0 : semverEQ mn0 unsetVersion = true :=
            (semverEQ_eq_true mn0 unsetVersion).mpr hst
          simp only [heq0, Bool.true_or, if_true] at hok
          obtain ⟨hmem, hle0, hall⟩ := minMaxLoop_min_spec rest mv _ mn mx hok hsf2 hsv
          refine ⟨?_, ?_⟩
          · rcases hmem with rfl | hmem2
            · exact List.mem_cons_self mn _
            · exact List.mem_cons_of_mem mv hmem2
          · intro v hv3
            rcases List.mem_cons.mp hv3 with rfl | hv4
            · exact hle0
            · exact hall v hv4
      · rw [if_neg hne] at hok
        have hparsed : parsedVersions (machine :: rest) = parsedVersions rest := by
          simp only [parsedVersions, hv]
          rw [if_neg hne]
        rw [hparsed] at hsf hnonempty ⊢
        exact ih mn0 mx0 mn mx hok hsf hst hnonempty

/-- The `max` accumulator invariant, once a non-sentinel value has been
installed. -/
theorem minMaxLoop_max_spec :
    ∀ (ms : List MachineV) (mn0 mx0 mn mx : SemVersion),
      minMaxLoop ms mn0 mx0 = .ok (mn, mx) →
      (∀ v ∈ parsedVersions ms, semverCompare v unsetVersion ≠ .eq) →
      semverCompare mx0 unsetVersion ≠ .eq →
      (mx = mx0 ∨ mx ∈ parsedVersions ms) ∧
        semverCompare mx mx0 ≠ .lt ∧
        ∀ v ∈ parsedVersions ms, semverCompare mx v ≠ .lt := by
  intro ms
  induction ms with
  | nil =>
    intro mn0 mx0 mn mx hok hsf hst
    simp only [minMaxLoop, Except.ok.injEq, Prod.mk.injEq] at hok
    obtain ⟨rfl, rfl⟩ := hok
    refine ⟨Or.inl rfl, ?_, ?_⟩
    · rw [semverCompare_isCmp.compare_self]
      exact fun hx => Ordering.noConfusion hx
    · intro v hv
      exact absurd hv (List.not_mem_nil v)
  | cons machine rest ih =>
    intro mn0 mx0 mn mx hok hsf hst
    rcases hv : machine.version with _ | vs
    · simp only [minMaxLoop, hv] at hok
      exact Except.noConfusion hok
    · simp only [minMaxLoop, hv] at hok
      by_cases hne : vs ≠ []
      · rw [if_pos hne] at hok
        rcases hp : parseTolerant vs with _ | mv
        · rw [hp] at hok
          exact Except.noConfusion hok
        · rw [hp] at hok
          have hparsed : parsedVersions (machine :: rest) = mv :: parsedVersions rest := by
            simp only [parsedVersions, hv]
            rw [if_pos hne, hp]
          rw [hparsed] at hsf ⊢
          have hsv : semverCompare mv unsetVersion ≠ .eq :=
            hsf mv (List.mem_cons_self mv _)
          have hsf2 : ∀ v ∈ parsedVersions rest, semverCompare v unsetVersion ≠ .eq :=
            fun v hv2 => hsf v (List.mem_cons_of_mem mv hv2)
          have heq0 : semverEQ mx0 unsetVersion = false := by
            rcases hb : semverEQ mx0 unsetVersion
            · rfl
            · exact absurd ((semverEQ_eq_true mx0 unsetVersion).mp hb) hst
          by_cases hgt : semverGT mv mx0 = true
          · simp only [heq0, hgt, Bool.false_or, if_true] at hok
            obtain ⟨hmem, hge0, hall⟩ := ih _ mv mn mx hok hsf2 hsv
            have hgtc : semverCompare mv mx0 = .gt := (semverGT_eq_true mv mx0).mp hgt
            refine ⟨?_, ?_, ?_⟩
            · rcases hmem with rfl | hmem2
              · exact Or.inr (List.mem_cons_self mx _)
              · exact Or.inr (List.mem_cons_of_mem mv hmem2)
            · refine semverCompare_isCmp.geTrans mx mv mx0 hge0 ?_
              rw [hgtc]
              exact fun hx => Ordering.noConfusion hx
            · intro v hv3
              rcases List.mem_cons.mp hv3 with rfl | hv4
              · exact hge0
              · exact hall v hv4
          · have hgtf : semverGT mv mx0 = false := by
              rcases hb : semverGT mv mx0
              · rfl
              · exact absurd hb hgt
            simp only [heq0, hgtf, Bool.false_or, if_false] at hok
            obtain ⟨hmem, hge0, hall⟩ := ih _ mx0 mn mx hok hsf2 hst
            have hngt : semverCompare mv mx0 ≠ .gt := by
              intro hx
              rw [(semverGT_eq_true mv mx0).mpr hx] at hgtf
              exact Bool.noConfusion hgtf
            have hge1 : semverCompare mx0 mv ≠ .lt := semverCompare_isCmp.swap_not_lt hngt
            refine ⟨?_, hge0, ?_⟩
            · rcases hmem with rfl | hmem2
              · exact Or.inl rfl
              · exact Or.inr (List.mem_cons_of_mem mv hmem2)
            · intro v hv3
              rcases List.mem_cons.mp hv3 with rfl | hv4
              · exact semverCompare_isCmp.geTrans mx mx0 v hge0 hge1
              · exact hall v hv4
      · rw [if_neg hne] at hok
        have hparsed : parsedVersions (machine :: rest) = parsedVersions rest := by
          simp only [parsedVersions, hv]
          rw [if_neg hne]
        rw [hparsed] at hsf ⊢
        exact ih mn0 mx0 mn mx hok hsf hst

/-- The `max` accumulator invariant before any value is installed. -/
theorem minMaxLoop_max_unstarted :
    ∀ (ms : List MachineV) (mn0 mx0 mn mx : SemVersion),
      minMaxLoop ms mn0 mx0 = .ok (mn, mx) →
      (∀ v ∈ parsedVersions ms, semverCompare v unsetVersion ≠ .eq) →
      semverCompare mx0 unsetVersion = .eq →
      parsedVersions ms ≠ [] →
      mx ∈ parsedVersions ms ∧ ∀ v ∈ parsedVersions ms, semverCompare mx v ≠ .lt := by
  intro ms
  induction ms with
  | nil =>
    intro mn0 mx0 mn mx hok hsf hst hne
    exact absurd rfl hne
  | cons machine rest ih =>
    intro mn0 mx0 mn mx hok hsf hst hnonempty
    rcases hv : machine.version with _ | vs
    · simp only [minMaxLoop, hv] at hok
      exact Except.noConfusion hok
    · simp only [minMaxLoop, hv] at hok
      by_cases hne : vs ≠ []
      · rw [if_pos hne] at hok
        rcases hp : parseTolerant vs with _ | mv
        · rw [hp] at hok
          exact Except.noConfusion hok
        · rw [hp] at hok
          have hparsed : parsedVersions (machine :: rest) = mv :: parsedVersions rest := by
            simp only [parsedVersions, hv]
            rw [if_pos hne, hp]
          rw [hparsed] at hsf ⊢
          have hsv : semverCompare mv unsetVersion ≠ .eq :=
            hsf mv (List.mem_cons_self mv _)
          have hsf2 : ∀ v ∈ parsedVersions rest, semverCompare v unsetVersion ≠ .eq :=
            fun v hv2 => hsf v (List.mem_cons_of_mem mv hv2)
          have heq0 : semverEQ mx0 unsetVersion = true :=
            (semverEQ_eq_true mx0 unsetVersion).mpr hst
          simp only [heq0, Bool.true_or, if_true] at hok
          obtain ⟨hmem, hge0, hall⟩ := minMaxLoop_max_spec rest _ mv mn mx hok hsf2 hsv
          refine ⟨?_, ?_⟩
          · rcases hmem with rfl | hmem2
            · exact List.mem_cons_self mx _
            · exact List.mem_cons_of_mem mv hmem2
          · intro v hv3
            rcases List.mem_cons.mp hv3 with rfl | hv4
            · exact hge0
            · exact hall v hv4
      · rw [if_neg hne] at hok
        have hparsed : parsedVersions (machine :: rest) = parsedVersions rest := by
          simp only [parsedVersions, hv]
          rw [if_neg hne]
        rw [hparsed] at hsf hnonempty ⊢
        exact ih mn0 mx0 mn mx hok hsf hst hnonempty

/-- C8 amended: (1) any machine with a nil `spec.version` forces an error;
(2) machines with an empty version string are skipped and do not affect the
result; (3) when the function succeeds and no machine version parses to the
0.0.0 sentinel, the returned pair is the least and greatest parsed version.
(The sentinel condition is forced by the counterexample: a parsed `0.0.0`
re-triggers the "not yet set" branch and is discarded.) -/
theorem minMaxControlPlaneVersions_spec (machines : List MachineV) :
    ((∃ m ∈ machines, m.version = none) →
      ∃ e, minMaxControlPlaneVersions machines = .error e) ∧
    (minMaxControlPlaneVersions machines =
      minMaxControlPlaneVersions (machines.filter (fun m => !(m.version == some [])))) ∧
    (∀ mn mx, minMaxControlPlaneVersions machines = .ok (mn, mx) →
      (∀ v ∈ parsedVersions machines, semverCompare v unsetVersion ≠ .eq) →
      parsedVersions machines ≠ [] →
      (mn ∈ parsedVersions machines ∧
        ∀ v ∈ parsedVersions machines, semverCompare mn v ≠ .gt) ∧
      (mx ∈ parsedVersions machines ∧
        ∀ v ∈ parsedVersions machines, semverCompare mx v ≠ .lt)) := by
  refine ⟨?_, ?_, ?_⟩
  · exact minMaxLoop_nil_error machines unsetVersion unsetVersion
  · exact minMaxLoop_filter_empty machines unsetVersion unsetVersion
  · intro mn mx hok hsf hne
    have hunset : semverCompare unsetVersion unsetVersion = .eq :=
      semverCompare_isCmp.compare_self unsetVersion
    exact ⟨minMaxLoop_min_unstarted machines unsetVersion unsetVersion mn mx hok hsf
        hunset hne,
      minMaxLoop_max_unstarted machines unsetVersion unsetVersion mn mx hok hsf
        hunset hne⟩

/-- C8 amended witness: a single machine at version `1.2.3`. -/
theorem minMaxControlPlaneVersions_spec_witness :
    ((⟨1, 2, 3, [], []⟩ : SemVersion) ∈
        parsedVersions [⟨"ns", "m0", some ['1', '.', '2', '.', '3']⟩] ∧
      ∀ v ∈ parsedVersions [⟨"ns", "m0", some ['1', '.', '2', '.', '3']⟩],
        semverCompare ⟨1, 2, 3, [], []⟩ v ≠ .gt) ∧
    ((⟨1, 2, 3, [], []⟩ : SemVersion) ∈
        parsedVersions [⟨"ns", "m0", some ['1', '.', '2', '.', '3']⟩] ∧
      ∀ v ∈ parsedVersions [⟨"ns", "m0", some ['1', '.', '2', '.', '3']⟩],
        semverCompare ⟨1, 2, 3, [], []⟩ v ≠ .lt) :=
  (minMaxControlPlaneVersions_spec [⟨"ns", "m0", some ['1', '.', '2', '.', '3']⟩]).2.2
    ⟨1, 2, 3, [], []⟩ ⟨1, 2, 3, [], []⟩ rfl (by decide) (by decide)

/-- C8 counterexample: with machines at `0.0.0` then `1.2.3`, the function
returns `min = 1.2.3` although `0.0.0` is parsed from the first machine and
is strictly smaller — the 0.0.0 "not yet set" sentinel swallows a real
0.0.0 version, so the returned min is not the least parsed version. -/
theorem minMaxControlPlaneVersions_counterexample :
    minMaxControlPlaneVersions
        [⟨"ns", "m0", some ['0', '.', '0', '.', '0']⟩,
          ⟨"ns", "m1", some ['1', '.', '2', '.', '3']⟩] =
      .ok (⟨1, 2, 3, [], []⟩, ⟨1, 2, 3, [], []⟩) ∧
    (⟨0, 0, 0, [], []⟩ : SemVersion) ∈
      parsedVersions [⟨"ns", "m0", some ['0', '.', '0', '.', '0']⟩,
        ⟨"ns", "m1", some ['1', '.', '2', '.', '3']⟩] ∧
    semverCompare ⟨0, 0, 0, [], []⟩ ⟨1, 2, 3, [], []⟩ = .lt := by
  refine ⟨rfl, by decide, by decide⟩

/-! ### C1: updateMachine ordering -/

theorem deleteOldMachine_trace (env : UMEnv) (machine : MachineM) (trace : List UEvent) :
    (deleteOldMachine env machine trace).2 =
      trace ++ [.deletedMachine machine.ns machine.name] := by
  unfold deleteOldMachine
  rcases env.deleteMachineR with e | u <;> rfl

theorem memberRemovePhase_shape (env : UMEnv) (oldHostName : String) (machine : MachineM)
    (trace : List UEvent) :
    ∃ ptl,
      (memberRemovePhase env (goMapGetD env.oldNodeToEtcdMember oldHostName "") machine
          trace).2 = trace ++ ptl ∧
      readyBeforeRemove ptl true = true ∧
      removalsMatchSnapshot env.oldNodeToEtcdMember oldHostName ptl = true ∧
      deleteAfterRemoval (goMapGetD env.oldNodeToEtcdMember oldHostName "" == "") ptl
        false = true := by
  unfold memberRemovePhase
  by_cases hmem : goMapGetD env.oldNodeToEtcdMember oldHostName "" ≠ ""
  · rw [if_pos hmem]
    rcases env.deleteEtcdMemberR (goMapGetD env.oldNodeToEtcdMember oldHostName "")
      with e | u
    · refine ⟨[.removedEtcdMember (goMapGetD env.oldNodeToEtcdMember oldHostName "")],
        rfl, rfl, ?_, rfl⟩
      simp [removalsMatchSnapshot, hmem]
    · have h2 := deleteOldMachine_trace env machine
        (trace ++ [.removedEtcdMember (goMapGetD env.oldNodeToEtcdMember oldHostName "")])
      refine ⟨[.removedEtcdMember (goMapGetD env.oldNodeToEtcdMember oldHostName ""),
        .deletedMachine machine.ns machine.name], ?_, rfl, ?_, rfl⟩
      · rw [h2, List.append_assoc]
        rfl
      · simp [removalsMatchSnapshot, hmem]
  · rw [if_neg hmem]
    have hmem2 : goMapGetD env.oldNodeToEtcdMember oldHostName "" = "" := by
      by_contra hx
      exact hmem hx
    refine ⟨[.deletedMachine machine.ns machine.name],
      deleteOldMachine_trace env machine trace, rfl, rfl, ?_⟩
    simp [deleteAfterRemoval, hmem2]

theorem updateMachineTail_shape (env : UMEnv) (oldHostName : String) (machine : MachineM)
    (trace : List UEvent) :
    ∃ tl, (updateMachineTail env oldHostName machine trace).2 = trace ++ tl ∧
      readyBeforeRemove tl false = true ∧
      removalsMatchSnapshot env.oldNodeToEtcdMember oldHostName tl = true ∧
      deleteAfterRemoval (goMapGetD env.oldNodeToEtcdMember oldHostName "" == "") tl
        false = true := by
  unfold updateMachineTail
  rcases env.waitForProviderIDR with e | pid
  · exact ⟨[.waitedForProviderID false], rfl, rfl, rfl, rfl⟩
  · rcases env.waitForMatchingNodeR with e | node
    · exact ⟨[.waitedForProviderID true, .waitedForMatchingNode false], rfl, rfl, rfl, rfl⟩
    · rcases env.waitForNodeReadyR with e | u
      · exact ⟨[.waitedForProviderID true, .waitedForMatchingNode true,
          .waitedForNodeReady false], rfl, rfl, rfl, rfl⟩
      · rcases env.updateProviderIDsR with e | u2
        · exact ⟨[.waitedForProviderID true, .waitedForMatchingNode true,
            .waitedForNodeReady true], rfl, rfl, rfl, rfl⟩
        · obtain ⟨ptl, hptl, hready, hrem, hdel⟩ :=
            memberRemovePhase_shape env oldHostName machine
              (trace ++ [.waitedForProviderID true, .waitedForMatchingNode true,
                .waitedForNodeReady true, .refreshedNodeMap])
          refine ⟨[.waitedForProviderID true, .waitedForMatchingNode true,
            .waitedForNodeReady true, .refreshedNodeMap] ++ ptl, ?_, ?_, ?_, ?_⟩
          · rw [hptl, List.append_assoc]
          · exact hready
          · exact hrem
          · exact hdel

/-- C1: in every execution of `updateMachine`, an etcd `member remove` is
invoked only after the replacement node passed `waitForNodeReady`, only with
the (nonempty) pre-upgrade snapshot entry for the old node's hostname, and
the old Machine is deleted only after that removal (or with no snapshot
entry present).  Runs that abort before resolving the old node produce no
remote events at all. -/
theorem updateMachine_quorum_safety (env : UMEnv) (replacementKey : ObjectKey)
    (machine : MachineM) :
    readyBeforeRemove (updateMachine env replacementKey machine).2 false = true ∧
    (∀ h, oldNodeHostname env machine = some h →
      removalsMatchSnapshot env.oldNodeToEtcdMember h
          (updateMachine env replacementKey machine).2 = true ∧
      deleteAfterRemoval (goMapGetD env.oldNodeToEtcdMember h "" == "")
          (updateMachine env replacementKey machine).2 false = true) ∧
    (oldNodeHostname env machine = none →
      (updateMachine env replacementKey machine).2 = []) := by
  rcases hpid : machine.providerID with _ | rawPID
  · have htrace : (updateMachine env replacementKey machine).2 = [] := by
      simp only [updateMachine, hpid]
    have hhost : oldNodeHostname env machine = none := by
      simp only [oldNodeHostname, hpid]
    rw [htrace, hhost]
    exact ⟨rfl, fun h hx => Option.noConfusion hx, fun _ => rfl⟩
  · rcases hnp : env.newProviderID rawPID with e | pid
    · have htrace : (updateMachine env replacementKey machine).2 = [] := by
        simp only [updateMachine, hpid, hnp]
      have hhost : oldNodeHostname env machine = none := by
        simp only [oldNodeHostname, hpid, hnp]
      rw [htrace, hhost]
      exact ⟨rfl, fun h hx => Option.noConfusion hx, fun _ => rfl⟩
    · rcases hlook : goAListGet env.providerIDsToNodes pid with _ | oldNode
      · have htrace : (updateMachine env replacementKey machine).2 = [] := by
          simp only [updateMachine, hpid, hnp, hlook]
        have hhost : oldNodeHostname env machine = none := by
          simp only [oldNodeHostname, hpid, hnp, hlook]
        rw [htrace, hhost]
        exact ⟨rfl, fun h hx => Option.noConfusion hx, fun _ => rfl⟩
      · have hhost : oldNodeHostname env machine = some (hostnameForNode oldNode) := by
          simp only [oldNodeHostname, hpid, hnp, hlook]
        rcases hex : env.resourceExistsR with e | found
        · have htrace : (updateMachine env replacementKey machine).2 = [] := by
            simp only [updateMachine, hpid, hnp, hlook, hex]
          rw [htrace, hhost]
          refine ⟨rfl, ?_, ?_⟩
          · intro h hx
            injection hx with hxh
            subst hxh
            exact ⟨rfl, rfl⟩
          · intro hx
            exact Option.noConfusion hx
        · rcases found
          · -- replacement does not exist: create it
            rcases hc : env.createMachineR
                { machine with
                  resourceVersion := ""
                  providerID := none
                  name := replacementKey.name
                  infrastructureRefName := replacementKey.name
                  bootstrapData := none
                  bootstrapConfigRefName := replacementKey.name
                  version := some env.desiredVersion } with e | u
            · have htrace : (updateMachine env replacementKey machine).2 =
                  [.checkedReplacementExists false] := by
                simp only [updateMachine, hpid, hnp, hlook, hex, hc]
              rw [htrace, hhost]
              refine ⟨rfl, ?_, ?_⟩
              · intro h hx
                injection hx with hxh
                subst hxh
                exact ⟨rfl, rfl⟩
              · intro hx
                exact Option.noConfusion hx
            · obtain ⟨tl, htr, hready, hrem, hdel⟩ :=
                updateMachineTail_shape env (hostnameForNode oldNode) machine
                  [.checkedReplacementExists false, .createdReplacement replacementKey.name]
              have htrace : (updateMachine env replacementKey machine).2 =
                  (updateMachineTail env (hostnameForNode oldNode) machine
                    [.checkedReplacementExists false,
                      .createdReplacement replacementKey.name]).2 := by
                simp only [updateMachine, hpid, hnp, hlook, hex, hc]
              rw [htrace, hhost, htr]
              refine ⟨hready, ?_, ?_⟩
              · intro h hx
                injection hx with hxh
                subst hxh
                exact ⟨hrem, hdel⟩
              · intro hx
                exact Option.noConfusion hx
          · -- replacement exists: fetch it
            rcases hg : env.getReplacementR with e | repl
            · have htrace : (updateMachine env replacementKey machine).2 =
                  [.checkedReplacementExists true] := by
                simp only [updateMachine, hpid, hnp, hlook, hex, hg]
              rw [htrace, hhost]
              refine ⟨rfl, ?_, ?_⟩
              · intro h hx
                injection hx with hxh
                subst hxh
                exact ⟨rfl, rfl⟩
              · intro hx
                exact Option.noConfusion hx
            · obtain ⟨tl, htr, hready, hrem, hdel⟩ :=
                updateMachineTail_shape env (hostnameForNode oldNode) machine
                  [.checkedReplacementExists true, .fetchedReplacement replacementKey.name]
              have htrace : (updateMachine env replacementKey machine).2 =
                  (updateMachineTail env (hostnameForNode oldNode) machine
                    [.checkedReplacementExists true,
                      .fetchedReplacement replacementKey.name]).2 := by
                simp only [updateMachine, hpid, hnp, hlook, hex, hg]
              rw [htrace, hhost, htr]
              refine ⟨hready, ?_, ?_⟩
              · intro h hx
                injection hx with hxh
                subst hxh
                exact ⟨hrem, hdel⟩
              · intro hx
                exact Option.noConfusion hx

/-- C1 witness: a fully successful run against a one-node cluster whose etcd
member snapshot holds the old node. -/
theorem updateMachine_quorum_safety_witness :
    readyBeforeRemove (updateMachine
        ⟨fun s => .ok s, [("i-1", ⟨"node-1", [(.hostName, "host-1")]⟩)], .ok false,
          fun _ => .ok (), .error "unused", .ok "aws:///i-2", .ok ⟨"node-2", []⟩,
          .ok (), .ok (), [("host-1", "abcd1234")], fun _ => .ok (), .ok (), "1.17.0"⟩
        ⟨"ns", "cp-0.upgrade.100"⟩
        ⟨"ns", "cp-0", "5", some "i-1", "cp-0", "cp-0", none, some "1.16.3"⟩).2
      false = true ∧
    removalsMatchSnapshot [("host-1", "abcd1234")] "host-1"
      (updateMachine
        ⟨fun s => .ok s, [("i-1", ⟨"node-1", [(.hostName, "host-1")]⟩)], .ok false,
          fun _ => .ok (), .error "unused", .ok "aws:///i-2", .ok ⟨"node-2", []⟩,
          .ok (), .ok (), [("host-1", "abcd1234")], fun _ => .ok (), .ok (), "1.17.0"⟩
        ⟨"ns", "cp-0.upgrade.100"⟩
        ⟨"ns", "cp-0", "5", some "i-1", "cp-0", "cp-0", none, some "1.16.3"⟩).2 = true := by
  have h := updateMachine_quorum_safety
    ⟨fun s => .ok s, [("i-1", ⟨"node-1", [(.hostName, "host-1")]⟩)], .ok false,
      fun _ => .ok (), .error "unused", .ok "aws:///i-2", .ok ⟨"node-2", []⟩,
      .ok (), .ok (), [("host-1", "abcd1234")], fun _ => .ok (), .ok (), "1.17.0"⟩
    ⟨"ns", "cp-0.upgrade.100"⟩
    ⟨"ns", "cp-0", "5", some "i-1", "cp-0", "cp-0", none, some "1.16.3"⟩
  exact ⟨h.1, (h.2.1 "host-1" rfl).1⟩

/-! ### C5: the updateMachines annotation gate -/

theorem goMapGetD_insert_self (m : List (String × String)) (k v d : String) :
    goMapGetD (goAListInsert m k v) k d = v := by
  induction m with
  | nil => simp [goAListInsert, goMapGetD]
  | cons kv rest ih =>
    obtain ⟨k2, v2⟩ := kv
    by_cases h : k2 = k
    · subst h
      simp [goAListInsert, goMapGetD]
    · simp [goAListInsert, goMapGetD, h, ih]

/-- C5: in the `updateMachines` loop body, a Machine with an absent or empty
upgrade-id annotation (and a provider id, a non-replacement name, and
successful patching) is patched with the current upgrade-id and then
processed — replacement synthesis is invoked for it; a Machine whose
annotation is present and differs from the current upgrade-id is skipped
with no patch and no synthesis. -/
theorem updateMachinesStep_annotation_gate (env : UMSEnv)
    (upgradeID clusterNamespace : String) (machine : MachineA) :
    ((goMapGetD (match machine.annotations with | none => [] | some a => a)
        AnnotationUpgradeID "" = "") →
      machine.providerID ≠ none →
      env.newPatchHelperR = .ok () →
      env.patchMachineR = .ok () →
      goHasSuffix machine.name (upgradeSuffixS upgradeID) = false →
      ∀ rn, generateReplacementMachineNameS machine.name upgradeID = some rn →
      MEvent.patchedUpgradeID upgradeID ∈
          (updateMachinesStep env upgradeID clusterNamespace machine).2 ∧
        MEvent.calledUpdateInfra rn ∈
          (updateMachinesStep env upgradeID clusterNamespace machine).2) ∧
    (∀ a, machine.providerID ≠ none →
      goMapGetD (match machine.annotations with | none => [] | some a2 => a2)
        AnnotationUpgradeID "" = a →
      a ≠ "" → a ≠ upgradeID →
      updateMachinesStep env upgradeID clusterNamespace machine =
        (.next, [.skippedMismatch a])) := by
  constructor
  · intro habs hpid hhelper hpatch hsuffix rn hrn
    rcases hp : machine.providerID with _ | p
    · exact absurd hp hpid
    · simp only [updateMachinesStep, hp]
      rw [if_pos habs, hhelper, hpatch]
      simp only [updateMachinesStepRest]
      have hcond : ¬ (goMapGetD
          (goAListInsert (match machine.annotations with | none => [] | some a => a)
            AnnotationUpgradeID upgradeID) AnnotationUpgradeID "" ≠ upgradeID) := by
        rw [goMapGetD_insert_self]
        exact fun hx => hx rfl
      rw [if_neg hcond, hsuffix]
      simp only [Bool.false_eq_true, if_false, hrn]
      rcases env.updateInfraR with e | u
      · simp
      · rcases env.updateBootstrapR with e2 | u2
        · simp
        · rcases env.updateMachineR with e3 | u3 <;> simp
  · intro a hpid hget hne hneU
    rcases hp : machine.providerID with _ | p
    · exact absurd hp hpid
    · simp only [updateMachinesStep, hp]
      rw [if_neg (by rw [hget]; exact hne)]
      simp only [updateMachinesStepRest]
      rw [if_pos (by rw [hget]; exact hneU), hget]
      rfl

/-- C5 witness: a machine with an empty annotation map is patched with
upgrade-id `100` and synthesized; a machine annotated `99` is skipped. -/
theorem updateMachinesStep_annotation_gate_witness :
    (MEvent.patchedUpgradeID "100" ∈
        (updateMachinesStep ⟨.ok (), .ok (), .ok (), .ok (), .ok ()⟩ "100" "ns"
          ⟨"ns", "cp-0", some "aws:///i-1", some [], "cp-0", "cp-0"⟩).2 ∧
      MEvent.calledUpdateInfra "cp-0.upgrade.100" ∈
        (updateMachinesStep ⟨.ok (), .ok (), .ok (), .ok (), .ok ()⟩ "100" "ns"
          ⟨"ns", "cp-0", some "aws:///i-1", some [], "cp-0", "cp-0"⟩).2) ∧
    updateMachinesStep ⟨.ok (), .ok (), .ok (), .ok (), .ok ()⟩ "100" "ns"
        ⟨"ns", "cp-1", some "aws:///i-2",
          some [("upgrade.cluster-api.vmware.com/id", "99")], "cp-1", "cp-1"⟩ =
      (.next, [.skippedMismatch "99"]) :=
  ⟨(updateMachinesStep_annotation_gate ⟨.ok (), .ok (), .ok (), .ok (), .ok ()⟩ "100" "ns"
      ⟨"ns", "cp-0", some "aws:///i-1", some [], "cp-0", "cp-0"⟩).1
    rfl (by simp) rfl rfl (by decide) "cp-0.upgrade.100" (by decide),
  (updateMachinesStep_annotation_gate ⟨.ok (), .ok (), .ok (), .ok (), .ok ()⟩ "100" "ns"
      ⟨"ns", "cp-1", some "aws:///i-2",
        some [("upgrade.cluster-api.vmware.com/id", "99")], "cp-1", "cp-1"⟩).2
    "99" (by simp) rfl (by decide) (by decide)⟩

end CPUpgrade
